import Mathlib

/-!
Shallow embedding of the CastXML output engine (`src/Output.cxx`).

The engine walks an already-built AST and serializes it to a flat XML
document.  The AST itself is produced by clang and is external to the
repository; it is modelled here as an environment (`AST`) exposing exactly
the queries `Output.cxx` performs: decl kind, canonical decl, name, decl
context, children, access, typedef underlying type, expansion location,
file names, and qualified-name lookup.  Decl pointers and file-entry
pointers are modelled as natural numbers; `clang::QualType` is a type
pointer plus three local qualifier bits.

Points of the translation that are behavioural rather than literal:
* `std::map` (ordered by key) becomes an association list kept sorted in
  ascending key order, so iteration order is map key order, as in C++.
* A `QueueEntry` in C++ carries a `DumpNode const*` into the map; since
  map node addresses are stable and the pointer is dereferenced at
  processing time, the entry is modelled as the map key and the processing
  loop re-reads the current `DumpNode` from the map when dequeuing.
* `std::queue` push/pop becomes append at the back / take from the front
  of a list.
* The output stream becomes a `String` accumulator.
* `ProcessQueue`'s `while` loop takes explicit fuel and returns `none`
  when the fuel runs out; reaching the `[]` queue is the loop exit.
* `LookupStart` splits its name on the first `::` and recurses on the
  remainder; iterating that first-separator split over a string produces
  exactly the segment list `name.splitOn "::"`, so the function is defined
  on the segment list.
-/

set_option autoImplicit false

namespace CastXML

/-- Record status of one AST node to be dumped (`ASTVisitorBase::DumpNode`).
`Index = 0` is the freshly-constructed "unassigned" state; nodes stored in
the registries always have `Index ≠ 0`. -/
structure DumpNode where
  Index : Nat
  Complete : Bool
deriving DecidableEq, Repr

/-- `clang::QualType`: a pointer to the type node plus the local
cv-qualifier bits (const/volatile/restrict). -/
structure QualType where
  ptr : Nat
  qConst : Bool
  qVolatile : Bool
  qRestrict : Bool
deriving DecidableEq, Repr

/-- `QualType::hasLocalQualifiers`. -/
def QualType.hasLocalQualifiers (t : QualType) : Bool :=
  t.qConst || t.qVolatile || t.qRestrict

/-- `QualType::getLocalUnqualifiedType`: same type pointer, no qualifiers. -/
def QualType.getLocalUnqualifiedType (t : QualType) : QualType :=
  { ptr := t.ptr, qConst := false, qVolatile := false, qRestrict := false }

/-- `ASTVisitor::QualTypeCompare` orders `QualType` values by the raw
pointer word, whose low bits encode the fast qualifiers
(const = 1, restrict = 2, volatile = 4 in clang).  The word is modelled as
`8 * ptr + bits`. -/
def QualType.key (t : QualType) : Nat :=
  8 * t.ptr + (if t.qConst then 1 else 0) + (if t.qRestrict then 2 else 0)
    + (if t.qVolatile then 4 else 0)

/-- Concrete decl kinds used by the engine: the three kinds with dedicated
output routines, the two kinds inspected by `PrintMembersAttribute`, and
a catch-all for every other clang decl kind (whose generated stub routine
reports it as unimplemented). -/
inductive DeclKind where
  | TranslationUnit
  | Namespace
  | Typedef
  | CXXRecord
  | AccessSpec
  | Other (kindName : String)
deriving DecidableEq, Repr

/-- `Decl::getDeclKindName`. -/
def DeclKind.kindName : DeclKind → String
  | .TranslationUnit => "TranslationUnit"
  | .Namespace => "Namespace"
  | .Typedef => "Typedef"
  | .CXXRecord => "CXXRecord"
  | .AccessSpec => "AccessSpec"
  | .Other n => n

/-- `clang::AccessSpecifier` values as read by `PrintContextAttribute`. -/
inductive Access where
  | pub
  | prot
  | priv
  | notSpecified
deriving DecidableEq, Repr

/-- The facts about one declaration that `Output.cxx` queries from clang. -/
structure DeclInfo where
  kind : DeclKind
  /-- `Decl::getCanonicalDecl`, as a decl pointer. -/
  canonical : Nat
  /-- `NamedDecl::getName`. -/
  name : String
  /-- `Decl::getDeclContext`, `none` when the context is not itself a decl
  (then `GetContextIdRef` returns 0 and no context attribute is printed). -/
  ctx : Option Nat
  /-- `DeclContext::decls_begin() .. decls_end()` in declaration order. -/
  children : List Nat
  /-- `CXXRecordDecl::isInjectedClassName`. -/
  injected : Bool
  /-- Whether `dyn_cast<DeclContext>` succeeds on this decl. -/
  isDeclContext : Bool
  /-- `Decl::getAccess`. -/
  access : Access
  /-- For a typedef, `getTypeSourceInfo()->getType()`. -/
  tyType : QualType
  /-- Expansion location: resolved file entry pointer and line, `none` when
  the source location is invalid or has no file entry. -/
  location : Option (Nat × Nat)
deriving DecidableEq, Repr

/-- The external AST environment consumed by the engine. -/
structure AST where
  info : Nat → DeclInfo
  /-- `FileEntry::getName`. -/
  fileName : Nat → String
  /-- `Type::getTypeClassName` for the pointed-to type node. -/
  typeClassName : Nat → String
  /-- `DeclContext::lookup` of a name inside a context decl. -/
  lookup : Nat → String → List Nat
  /-- `ASTContext::getTranslationUnitDecl`, as a decl pointer. -/
  tuDecl : Nat

/-- Identity key of a registered node: a canonical decl pointer or a
(possibly qualified) type.  It doubles as the traversal queue entry
(`ASTVisitor::QueueEntry` holds the node reference; its `DumpNode` pointer
is re-read from the registry at processing time). -/
inductive NodeKey where
  | decl (d : Nat)
  | type (t : QualType)
deriving DecidableEq, Repr

/-- Map key of a `NodeKey` in its registry (`Decl const*` pointer order for
decls, `QualTypeCompare` order for types). -/
def NodeKey.mapKey : NodeKey → Nat
  | .decl d => d
  | .type t => t.key

/-- Sorted association list lookup (`std::map::find` by key). -/
def alistFind {α β : Type} (key : α → Nat) (k : α) : List (α × β) → Option β
  | [] => none
  | (k', v') :: rest =>
    if key k = key k' then some v' else alistFind key k rest

/-- Sorted association list insert-or-replace, keeping ascending key order
(`std::map` storage). -/
def alistInsert {α β : Type} (key : α → Nat) (k : α) (v : β) :
    List (α × β) → List (α × β)
  | [] => [(k, v)]
  | (k', v') :: rest =>
    if key k < key k' then (k, v) :: (k', v') :: rest
    else if key k = key k' then (k, v) :: rest
    else (k', v') :: alistInsert key k v rest

/-- The mutable state of one `ASTVisitor` dump. -/
structure VisState where
  /-- Total number of nodes to be dumped (`NodeCount`). -/
  NodeCount : Nat
  /-- Total number of source files to be referenced (`FileCount`). -/
  FileCount : Nat
  /-- Whether we are in the complete or incomplete output step. -/
  RequireComplete : Bool
  /-- `DeclNodes`: map from canonical decl pointer to dump status. -/
  DeclNodes : List (Nat × DumpNode)
  /-- `TypeNodes`: map from qualified type to dump status. -/
  TypeNodes : List (QualType × DumpNode)
  /-- `FileNodes`: map from file entry pointer to source file index. -/
  FileNodes : List (Nat × Nat)
  /-- Node traversal queue (front = next to process). -/
  Queue : List NodeKey
  /-- File traversal queue. -/
  FileQueue : List Nat
  /-- Everything written to the output stream so far. -/
  Output : String
deriving DecidableEq, Repr

/-- The state at `ASTVisitor` construction. -/
def VisState.initial : VisState :=
  { NodeCount := 0, FileCount := 0, RequireComplete := true,
    DeclNodes := [], TypeNodes := [], FileNodes := [],
    Queue := [], FileQueue := [], Output := "" }

/-- Registry lookup for a node identity (`GetDumpNode`, reading). -/
def VisState.findNode (s : VisState) : NodeKey → Option DumpNode
  | .decl d => alistFind id d s.DeclNodes
  | .type t => alistFind QualType.key t s.TypeNodes

/-- Registry store for a node identity (`GetDumpNode`, writing back the
mutated status). -/
def VisState.insertNode (s : VisState) (k : NodeKey) (dn : DumpNode) :
    VisState :=
  match k with
  | .decl d => { s with DeclNodes := alistInsert id d dn s.DeclNodes }
  | .type t => { s with TypeNodes := alistInsert QualType.key t dn s.TypeNodes }

/-- Append text to the output stream. -/
def emit (str : String) (s : VisState) : VisState :=
  { s with Output := s.Output ++ str }

/-- `ASTVisitor::AddDumpNodeImpl`: update an existing node or add one,
returning the node's index. -/
def AddDumpNodeImpl (k : NodeKey) (complete : Bool) (s : VisState) :
    Nat × VisState :=
  match s.findNode k with
  | some dn =>
    -- Node was already encountered.  See if it is now complete.
    if complete && !dn.Complete then
      -- Node is now complete, but wasn't before.  Queue it.
      let s := s.insertNode k { dn with Complete := true }
      (dn.Index, { s with Queue := s.Queue ++ [k] })
    else
      (dn.Index, s)
  | none =>
    -- This is a new node.  Assign it an index.
    let idx := s.NodeCount + 1
    let s := { s.insertNode k { Index := idx, Complete := complete } with
               NodeCount := idx }
    if complete || !s.RequireComplete then
      -- Node is complete.  Queue it.
      (idx, { s with Queue := s.Queue ++ [k] })
    else
      (idx, s)

/-- `ASTVisitor::AddDumpNode` for a declaration: adds the node for the
canonical declaration instance. -/
def AddDumpNode (A : AST) (d : Nat) (complete : Bool) (s : VisState) :
    Nat × VisState :=
  AddDumpNodeImpl (.decl (A.info d).canonical) complete s

/-- `ASTVisitor::AddDumpNode` for a type. -/
def AddDumpNodeType (t : QualType) (complete : Bool) (s : VisState) :
    Nat × VisState :=
  AddDumpNodeImpl (.type t) complete s

/-- `ASTVisitor::AddDumpFile`. -/
def AddDumpFile (f : Nat) (s : VisState) : Nat × VisState :=
  match alistFind id f s.FileNodes with
  | some i => (i, s)
  | none =>
    let i := s.FileCount + 1
    (i, { s with FileCount := i,
                 FileNodes := alistInsert id f i s.FileNodes,
                 FileQueue := s.FileQueue ++ [f] })

/-- `ASTVisitor::QueueIncompleteDumpNodes`: queue declaration nodes then
type nodes that do not need complete output, in registry (map key) order. -/
def QueueIncompleteDumpNodes (s : VisState) : VisState :=
  { s with Queue := s.Queue
      ++ ((s.DeclNodes.filter (fun p => !p.2.Complete)).map
            (fun p => NodeKey.decl p.1))
      ++ ((s.TypeNodes.filter (fun p => !p.2.Complete)).map
            (fun p => NodeKey.type p.1)) }

/-- Modelled from the spec: `encodeXML` lives in `src/Utils.cxx`, which is
not part of the provided sources; the spec says only that string attribute
values are XML-entity-escaped.  The minimal XML escaping of `&`, `<`, `>`
is used. -/
def encodeXMLChar (c : Char) : String :=
  if c = '&' then "&amp;"
  else if c = '<' then "&lt;"
  else if c = '>' then "&gt;"
  else String.singleton c

/-- Modelled from the spec: XML entity escaping of attribute values. -/
def encodeXML (str : String) : String :=
  String.join (str.toList.map encodeXMLChar)

/-- `ASTVisitorBase::OutputUnimplementedDecl`. -/
def OutputUnimplementedDecl (A : AST) (d : Nat) (dn : DumpNode)
    (s : VisState) : VisState :=
  emit ("  <Unimplemented id=\"_" ++ toString dn.Index
    ++ "\" kind=\"" ++ encodeXML (A.info d).kind.kindName ++ "\"/>\n") s

/-- `ASTVisitorBase::OutputUnimplementedType`. -/
def OutputUnimplementedType (A : AST) (t : QualType) (dn : DumpNode)
    (s : VisState) : VisState :=
  emit ("  <Unimplemented id=\"_" ++ toString dn.Index
    ++ "\" type_class=\"" ++ encodeXML (A.typeClassName t.ptr) ++ "\"/>\n") s

/-- `ASTVisitor::OutputCvQualifiedType`.  The source body is only a TODO
comment; it emits nothing and changes no state. -/
def OutputCvQualifiedType (_t : QualType) (_dn : DumpNode) (s : VisState) :
    VisState :=
  s

/-- `ASTVisitor::GetContextIdRef`: register the context decl without
forcing completeness; 0 when the context is not a decl. -/
def GetContextIdRef (A : AST) (dc : Option Nat) (s : VisState) :
    Nat × VisState :=
  match dc with
  | some d => AddDumpNode A d false s
  | none => (0, s)

/-- `ASTVisitor::GetTypeIdRef`: register the type; when it carries local
qualifiers, also register the unqualified type and return its id together
with the three qualifier flags. -/
def GetTypeIdRef (t : QualType) (complete : Bool) (s : VisState) :
    (Nat × Bool × Bool × Bool) × VisState :=
  let (id0, s) := AddDumpNodeType t complete s
  let qc := t.qConst
  let qv := t.qVolatile
  let qr := t.qRestrict
  if t.hasLocalQualifiers then
    let (id1, s) := AddDumpNodeType t.getLocalUnqualifiedType complete s
    ((id1, qc, qv, qr), s)
  else
    ((id0, qc, qv, qr), s)

/-- `ASTVisitor::PrintTypeIdRef`: print `_<id>` and append the qualifier
letters in the fixed order c, v, r. -/
def PrintTypeIdRef (t : QualType) (complete : Bool) (s : VisState) :
    VisState :=
  let ((id, qc, qv, qr), s) := GetTypeIdRef t complete s
  emit ("_" ++ toString id
    ++ (if qc then "c" else "")
    ++ (if qv then "v" else "")
    ++ (if qr then "r" else "")) s

/-- `ASTVisitor::PrintIdAttribute`. -/
def PrintIdAttribute (dn : DumpNode) (s : VisState) : VisState :=
  emit (" id=\"_" ++ toString dn.Index ++ "\"") s

/-- `ASTVisitor::PrintNameAttribute`. -/
def PrintNameAttribute (name : String) (s : VisState) : VisState :=
  emit (" name=\"" ++ encodeXML name ++ "\"") s

/-- `ASTVisitor::PrintTypeAttribute`. -/
def PrintTypeAttribute (t : QualType) (complete : Bool) (s : VisState) :
    VisState :=
  let s := emit " type=\"" s
  let s := PrintTypeIdRef t complete s
  emit "\"" s

/-- `ASTVisitor::PrintLocationAttribute`. -/
def PrintLocationAttribute (A : AST) (d : Nat) (s : VisState) : VisState :=
  match (A.info d).location with
  | none => s
  | some (f, line) =>
    let (id, s) := AddDumpFile f s
    emit (" location=\"f" ++ toString id ++ ":" ++ toString line
      ++ "\" file=\"f" ++ toString id
      ++ "\" line=\"" ++ toString line ++ "\"") s

/-- `ASTVisitor::PrintContextAttribute`. -/
def PrintContextAttribute (A : AST) (d : Nat) (s : VisState) : VisState :=
  let (id, s) := GetContextIdRef A (A.info d).ctx s
  if id ≠ 0 then
    let s := emit (" context=\"_" ++ toString id ++ "\"") s
    match (A.info d).ctx with
    | some dc =>
      if (A.info dc).kind = .CXXRecord then
        match (A.info d).access with
        | .priv => emit " access=\"private\"" s
        | .prot => emit " access=\"protected\"" s
        | _ => emit " access=\"public\"" s
      else s
    | none => s
  else s

/-- The member-skipping rule of `PrintMembersAttribute`: a class's
self-referential injected name and access-specifier markers are ignored. -/
def memberSkipped (A : AST) (d : Nat) : Bool :=
  match (A.info d).kind with
  | .CXXRecord => (A.info d).injected
  | .AccessSpec => true
  | _ => false

/-- Insert into the sorted duplicate-free id list (`std::set<unsigned>`
insertion). -/
def setInsert (i : Nat) : List Nat → List Nat
  | [] => [i]
  | j :: rest =>
    if i < j then i :: j :: rest
    else if i = j then j :: rest
    else j :: setInsert i rest

/-- The member loop of `PrintMembersAttribute`: register each non-skipped
child with a full completeness request and collect the ids in the set. -/
def membersLoop (A : AST) : List Nat → List Nat → VisState →
    List Nat × VisState
  | [], emitted, s => (emitted, s)
  | d :: rest, emitted, s =>
    if memberSkipped A d then
      membersLoop A rest emitted s
    else
      let (i, s) := AddDumpNode A d true s
      if i ≠ 0 then membersLoop A rest (setInsert i emitted) s
      else membersLoop A rest emitted s

/-- Render the set iteration of `PrintMembersAttribute`'s emission loop:
`_a _b _c` over the ascending id list. -/
def idRefList (ids : List Nat) : String :=
  String.intercalate " " (ids.map (fun i => "_" ++ toString i))

/-- `ASTVisitor::PrintMembersAttribute`. -/
def PrintMembersAttribute (A : AST) (dc : Nat) (s : VisState) : VisState :=
  let (emitted, s) := membersLoop A (A.info dc).children [] s
  if emitted.isEmpty then s
  else emit (" members=\"" ++ idRefList emitted ++ "\"") s

/-- `ASTVisitor::OutputTranslationUnitDecl`. -/
def OutputTranslationUnitDecl (A : AST) (d : Nat) (dn : DumpNode)
    (s : VisState) : VisState :=
  let s := emit "  <Namespace" s
  let s := PrintIdAttribute dn s
  let s := PrintNameAttribute "::" s
  let s := if dn.Complete then PrintMembersAttribute A d s else s
  emit "/>\n" s

/-- `ASTVisitor::OutputNamespaceDecl`. -/
def OutputNamespaceDecl (A : AST) (d : Nat) (dn : DumpNode)
    (s : VisState) : VisState :=
  let s := emit "  <Namespace" s
  let s := PrintIdAttribute dn s
  let s := PrintNameAttribute (A.info d).name s
  let s := PrintContextAttribute A d s
  let s := if dn.Complete then PrintMembersAttribute A d s else s
  emit "/>\n" s

/-- `ASTVisitor::OutputTypedefDecl`. -/
def OutputTypedefDecl (A : AST) (d : Nat) (dn : DumpNode)
    (s : VisState) : VisState :=
  let s := emit "  <Typedef" s
  let s := PrintIdAttribute dn s
  let s := PrintNameAttribute (A.info d).name s
  let s := PrintTypeAttribute (A.info d).tyType dn.Complete s
  let s := PrintContextAttribute A d s
  let s := PrintLocationAttribute A d s
  emit "/>\n" s

/-- Whether a decl kind has a dedicated output routine in `ASTVisitor`
(every other kind keeps the generated stub that reports it as
unimplemented). -/
def hasDedicatedRoutine : DeclKind → Bool
  | .TranslationUnit => true
  | .Namespace => true
  | .Typedef => true
  | _ => false

/-- `ASTVisitor::OutputDecl`: dispatch output of the declaration by kind. -/
def OutputDecl (A : AST) (d : Nat) (dn : DumpNode) (s : VisState) :
    VisState :=
  match (A.info d).kind with
  | .TranslationUnit => OutputTranslationUnitDecl A d dn s
  | .Namespace => OutputNamespaceDecl A d dn s
  | .Typedef => OutputTypedefDecl A d dn s
  | _ => OutputUnimplementedDecl A d dn s

/-- `ASTVisitor::OutputType`: qualified types go to
`OutputCvQualifiedType`; unqualified types dispatch on the type class, and
`ASTVisitor` overrides no type routine, so every class reaches
`OutputUnimplementedType`. -/
def OutputType (A : AST) (t : QualType) (dn : DumpNode) (s : VisState) :
    VisState :=
  if t.hasLocalQualifiers then
    OutputCvQualifiedType t dn s
  else
    OutputUnimplementedType A t dn s

/-- Process one dequeued entry (`ProcessQueue` loop body): re-read the
node's current dump status and dispatch by entry kind. -/
def dispatchEntry (A : AST) (qe : NodeKey) (s : VisState) : VisState :=
  let dn := (s.findNode qe).getD { Index := 0, Complete := false }
  match qe with
  | .decl d => OutputDecl A d dn s
  | .type t => OutputType A t dn s

/-- `ASTVisitor::ProcessQueue`: dispatch each entry until the queue is
empty.  The loop takes fuel; `none` means the fuel ran out before the
queue emptied. -/
def ProcessQueue (A : AST) : Nat → VisState → Option VisState
  | 0, s =>
    match s.Queue with
    | [] => some s
    | _ :: _ => none
  | fuel + 1, s =>
    match s.Queue with
    | [] => some s
    | qe :: rest => ProcessQueue A fuel (dispatchEntry A qe { s with Queue := rest })

/-- One `<File .../>` element of `ProcessFileQueue`. -/
def fileElement (A : AST) (s : VisState) (f : Nat) : String :=
  "  <File id=\"f" ++ toString ((alistFind id f s.FileNodes).getD 0)
    ++ "\" name=\"" ++ encodeXML (A.fileName f) ++ "\"/>\n"

/-- The pop-and-emit loop of `ProcessFileQueue` over the queued files. -/
def processFileQueueAux (A : AST) : List Nat → VisState → VisState
  | [], s => s
  | f :: rest, s => processFileQueueAux A rest (emit (fileElement A s f) s)

/-- `ASTVisitor::ProcessFileQueue`: emit one `<File .../>` element per
queued file, in queue order, leaving the file queue empty. -/
def ProcessFileQueue (A : AST) (s : VisState) : VisState :=
  processFileQueueAux A s.FileQueue { s with FileQueue := [] }

/-- Recursion worker for `LookupStart`.  The first argument is a
structural recursion bound; it is always instantiated with the length of
the segment list, which strictly exceeds the length of the tail recursed
on, so the `0` case with a nonempty segment list is never reached. -/
def lookupStartAux (A : AST) : Nat → List String → Nat → VisState → VisState
  | _, [], _, s => s
  | 0, _ :: _, _, s => s
  | bound + 1, cur :: rest, dc, s =>
    if rest.isEmpty then
      (A.lookup dc cur).foldl (fun s d => (AddDumpNode A d true s).2) s
    else
      (A.lookup dc cur).foldl
        (fun s d =>
          if (A.info d).isDeclContext then lookupStartAux A bound rest d s
          else s) s

/-- `ASTVisitor::LookupStart`: queue declarations matching the dotted
qualified name in the given context.  The name is passed as its list of
`::`-separated segments (the result of iterating the source's
first-separator split). -/
def LookupStart (A : AST) (segs : List String) (dc : Nat) (s : VisState) :
    VisState :=
  lookupStartAux A segs.length segs dc s

/-- Split a dotted qualified name into its `::`-separated segments by
scanning for the leftmost `::` and continuing on the remainder, exactly
the iterated `find`/`substr` split performed by `LookupStart`. -/
def splitScopedNameAux : List Char → List Char → List String
  | [], acc => [String.mk acc.reverse]
  | ':' :: ':' :: rest, acc => String.mk acc.reverse :: splitScopedNameAux rest []
  | c :: rest, acc => splitScopedNameAux rest (c :: acc)

/-- The segment list of a dotted qualified name. -/
def splitScopedName (name : String) : List String :=
  splitScopedNameAux name.toList []

/-- The document header written by `HandleTranslationUnit`. -/
def xmlHeader : String :=
  "<?xml version=\"1.0\"?>\n<GCC_XML version=\"0.9.0\" cvs_revision=\"1.136\">\n"

/-- The document trailer written by `HandleTranslationUnit`. -/
def xmlFooter : String :=
  "</GCC_XML>\n"

/-- The start-set seeding step of `HandleTranslationUnit`: use the
specified starting locations, or the whole translation unit when none are
given. -/
def seedStart (A : AST) (startNames : List String) (s : VisState) :
    VisState :=
  if !startNames.isEmpty then
    startNames.foldl (fun s n => LookupStart A (splitScopedName n) A.tuDecl s) s
  else
    (AddDumpNode A A.tuDecl true s).2

/-- `ASTVisitor::HandleTranslationUnit`: seed the start set, write the
header, drain the complete-node queue, switch off `RequireComplete`, queue
and drain the incomplete nodes, flush the file queue, write the trailer. -/
def HandleTranslationUnit (A : AST) (startNames : List String) (fuel : Nat)
    (s : VisState) : Option VisState :=
  let s := seedStart A startNames s
  let s := emit xmlHeader s
  match ProcessQueue A fuel s with
  | none => none
  | some s =>
    let s := QueueIncompleteDumpNodes { s with RequireComplete := false }
    match ProcessQueue A fuel s with
    | none => none
    | some s =>
      let s := ProcessFileQueue A s
      some (emit xmlFooter s)

/-- `outputXML`: run a dump from the freshly-constructed visitor state. -/
def outputXML (A : AST) (startNames : List String) (fuel : Nat) :
    Option VisState :=
  HandleTranslationUnit A startNames fuel VisState.initial

/-!
Observation helpers used to state properties of the produced document
text, such as how many times an attribute string occurs and which of two
attribute strings appears first.
-/

/-- Number of positions of `l` at which `sub` occurs. -/
def listOccCount {α : Type} [DecidableEq α] (sub : List α) : List α → Nat
  | [] => 0
  | c :: rest =>
    (if sub.isPrefixOf (c :: rest) then 1 else 0) + listOccCount sub rest

/-- Number of positions of `s` at which the substring `sub` occurs. -/
def occCount (sub s : String) : Nat :=
  listOccCount sub.toList s.toList

/-- The text strictly before the first occurrence of `sub`, when `sub`
occurs at all. -/
def beforeFirst {α : Type} [DecidableEq α] (sub : List α) :
    List α → Option (List α)
  | [] => none
  | c :: rest =>
    if sub.isPrefixOf (c :: rest) then some []
    else (beforeFirst sub rest).map (fun l => c :: l)

/-- `a` occurs strictly before the first occurrence of `b` in `s`. -/
def occursBefore (a b s : String) : Bool :=
  match beforeFirst b.toList s.toList with
  | none => false
  | some pre => 0 < listOccCount a.toList pre

/-- Concatenation of a list of output fragments. -/
def strJoin : List String → String
  | [] => ""
  | a :: rest => a ++ strJoin rest

/-- The completeness recorded for an identity, `false` when unseen. -/
def VisState.nodeComplete (s : VisState) (k : NodeKey) : Bool :=
  match s.findNode k with
  | some dn => dn.Complete
  | none => false

/-- Every stored dump node has a nonzero index (`Index = 0` marks only the
transient freshly-constructed state inside `AddDumpNodeImpl`). -/
def ZeroFree (s : VisState) : Prop :=
  ∀ k dn, s.findNode k = some dn → 0 < dn.Index

/-- The keys of a registry, in storage order. -/
def mapKeys {α β : Type} (key : α → Nat) (l : List (α × β)) : List Nat :=
  l.map fun p => key p.1

/-- Both registries hold their entries in strictly ascending key order
(the `std::map` storage invariant). -/
def WellFormedMaps (s : VisState) : Prop :=
  List.Chain' (· < ·) (mapKeys id s.DeclNodes) ∧
  List.Chain' (· < ·) (mapKeys QualType.key s.TypeNodes)

/-- What one traversal step is allowed to do to the state: it never
touches `RequireComplete`, only appends to the output and to the file
queue, and existing registry entries keep their index and never lose
completeness. -/
def Preserves (s s' : VisState) : Prop :=
  s'.RequireComplete = s.RequireComplete ∧
  (∃ t, s'.Output = s.Output ++ t) ∧
  (∃ fs, s'.FileQueue = s.FileQueue ++ fs) ∧
  (∀ k dn, s.findNode k = some dn →
    ∃ dn', s'.findNode k = some dn' ∧ dn'.Index = dn.Index ∧
      (dn.Complete = true → dn'.Complete = true)) ∧
  (WellFormedMaps s → WellFormedMaps s')

/-- Specification-level reading of start-set resolution (spec section
4.5): split the dotted name, look the leading segment up in the current
container, and recurse with the remaining segments into every match that
is itself a container; the result is the list of matched declarations, in
traversal order. -/
def resolveStartAux (A : AST) : Nat → List String → Nat → List Nat
  | _, [], _ => []
  | 0, _ :: _, _ => []
  | bound + 1, cur :: rest, dc =>
    if rest.isEmpty then A.lookup dc cur
    else
      ((A.lookup dc cur).filter (fun d => (A.info d).isDeclContext)).flatMap
        (fun d => resolveStartAux A bound rest d)

/-- Start-set resolution of a segment list (see `resolveStartAux`; the
bound is the segment count, so the truncation case is never reached). -/
def resolveStart (A : AST) (segs : List String) (dc : Nat) : List Nat :=
  resolveStartAux A segs.length segs dc

/-- A `DeclInfo` with no interesting facts, used as the default entry of
concrete test ASTs. -/
def baseInfo : DeclInfo :=
  { kind := .Other "Unknown", canonical := 0, name := "", ctx := none,
    children := [], injected := false, isDeclContext := false,
    access := .notSpecified, tyType := ⟨0, false, false, false⟩,
    location := none }

/-- Concrete AST: a translation unit (decl 1) containing one typedef
(decl 2) named `t` whose underlying type is the `const`-qualified builtin
type 7. -/
def astCv : AST :=
  { info := fun d =>
      if d = 1 then { baseInfo with
                      kind := .TranslationUnit
                      canonical := 1
                      children := [2]
                      isDeclContext := true }
      else if d = 2 then { baseInfo with
                           kind := .Typedef
                           canonical := 2
                           name := "t"
                           ctx := some 1
                           tyType := ⟨7, true, false, false⟩ }
      else baseInfo,
    fileName := fun _ => "f",
    typeClassName := fun _ => "Builtin",
    lookup := fun _ _ => [],
    tuDecl := 1 }

/-- Concrete AST: a translation unit (decl 1) with namespace `A`
(decl 20, containing typedef `t1` = decl 15) and namespace `B` (decl 10,
containing typedef `t2` = decl 25).  `A` is discovered before `B` during
a dump started at `A::t1` and `B::t2`, but `A`'s decl pointer (20) is
larger than `B`'s (10). -/
def astOrder : AST :=
  { info := fun d =>
      if d = 1 then { baseInfo with
                      kind := .TranslationUnit
                      canonical := 1
                      isDeclContext := true }
      else if d = 20 then { baseInfo with
                            kind := .Namespace
                            canonical := 20
                            name := "A"
                            ctx := some 1
                            isDeclContext := true
                            children := [15] }
      else if d = 15 then { baseInfo with
                            kind := .Typedef
                            canonical := 15
                            name := "t1"
                            ctx := some 20
                            tyType := ⟨100, false, false, false⟩ }
      else if d = 10 then { baseInfo with
                            kind := .Namespace
                            canonical := 10
                            name := "B"
                            ctx := some 1
                            isDeclContext := true
                            children := [25] }
      else if d = 25 then { baseInfo with
                            kind := .Typedef
                            canonical := 25
                            name := "t2"
                            ctx := some 10
                            tyType := ⟨100, false, false, false⟩ }
      else baseInfo,
    fileName := fun _ => "f",
    typeClassName := fun _ => "Builtin",
    lookup := fun dc n =>
      if dc = 1 ∧ n = "A" then [20]
      else if dc = 1 ∧ n = "B" then [10]
      else if dc = 20 ∧ n = "t1" then [15]
      else if dc = 10 ∧ n = "t2" then [25]
      else [],
    tuDecl := 1 }

/-- Concrete AST: a class (decl 3) whose direct children are its injected
class name (decl 4), an access specifier (decl 5), and two fields
(decls 6 and 7); and an empty class (decl 8) whose only children are
skipped members. -/
def astMembers : AST :=
  { info := fun d =>
      if d = 3 then { baseInfo with
                      kind := .CXXRecord
                      canonical := 3
                      name := "C"
                      children := [4, 5, 6, 7]
                      isDeclContext := true }
      else if d = 4 then { baseInfo with
                           kind := .CXXRecord
                           canonical := 4
                           name := "C"
                           injected := true }
      else if d = 5 then { baseInfo with
                           kind := .AccessSpec
                           canonical := 5 }
      else if d = 6 then { baseInfo with
                           kind := .Other "Field"
                           canonical := 6
                           name := "x" }
      else if d = 7 then { baseInfo with
                           kind := .Other "Field"
                           canonical := 7
                           name := "y" }
      else if d = 8 then { baseInfo with
                           kind := .CXXRecord
                           canonical := 8
                           name := "E"
                           children := [9, 11]
                           isDeclContext := true }
      else if d = 9 then { baseInfo with
                           kind := .CXXRecord
                           canonical := 9
                           name := "E"
                           injected := true }
      else if d = 11 then { baseInfo with
                            kind := .AccessSpec
                            canonical := 11 }
      else baseInfo,
    fileName := fun _ => "f",
    typeClassName := fun _ => "Builtin",
    lookup := fun _ _ => [],
    tuDecl := 1 }

/-!
Registry lemmas: the map-key encoding is injective and the association
list operations behave like `std::map` find and insert-or-assign.
-/

theorem QualType.key_inj {t t' : QualType} (h : t.key = t'.key) : t = t' := by
  obtain ⟨p, c, v, r⟩ := t
  obtain ⟨p', c', v', r'⟩ := t'
  simp only [QualType.key] at h
  cases c <;> cases v <;> cases r <;> cases c' <;> cases v' <;> cases r' <;>
    simp_all <;> omega

theorem NodeKey.mapKey_inj : ∀ {k k' : NodeKey},
    k.mapKey = k'.mapKey → (k = k' ∨ ∃ d t, (k = .decl d ∧ k' = .type t) ∨
      (k = .type t ∧ k' = .decl d)) := by
  intro k k' h
  cases k with
  | decl d =>
    cases k' with
    | decl d' => exact Or.inl (by simpa [NodeKey.mapKey] using h)
    | type t' => exact Or.inr ⟨d, t', Or.inl ⟨rfl, rfl⟩⟩
  | type t =>
    cases k' with
    | decl d' => exact Or.inr ⟨d', t, Or.inr ⟨rfl, rfl⟩⟩
    | type t' =>
      exact Or.inl (congrArg NodeKey.type (QualType.key_inj (by simpa [NodeKey.mapKey] using h)))

theorem alistFind_insert_self {α β : Type} (key : α → Nat) (k : α) (v : β)
    (l : List (α × β)) :
    alistFind key k (alistInsert key k v l) = some v := by
  induction l with
  | nil => simp [alistFind, alistInsert]
  | cons p rest ih =>
    obtain ⟨k', v'⟩ := p
    by_cases hlt : key k < key k'
    · simp [alistFind, alistInsert, hlt]
    · by_cases heq : key k = key k'
      · simp [alistFind, alistInsert, hlt, heq]
      · simp [alistFind, alistInsert, hlt, heq, ih]

theorem alistFind_insert_ne {α β : Type} (key : α → Nat) (k k2 : α) (v : β)
    (l : List (α × β)) (h : key k ≠ key k2) :
    alistFind key k2 (alistInsert key k v l) = alistFind key k2 l := by
  have h' : key k2 ≠ key k := Ne.symm h
  induction l with
  | nil => simp [alistFind, alistInsert, h']
  | cons p rest ih =>
    obtain ⟨k', v'⟩ := p
    by_cases hlt : key k < key k'
    · simp [alistFind, alistInsert, hlt, h']
    · by_cases heq : key k = key k'
      · have h2 : key k2 ≠ key k' := fun hh => h' (hh.trans heq.symm)
        simp [alistFind, alistInsert, hlt, heq, h', h2]
      · by_cases h2 : key k2 = key k'
        · simp [alistFind, alistInsert, hlt, heq, h2]
        · simp [alistFind, alistInsert, hlt, heq, h2, ih]

theorem alistFind_mem {α β : Type} {key : α → Nat} {k : α} {v : β}
    {l : List (α × β)} (h : alistFind key k l = some v) :
    ∃ k', key k' = key k ∧ (k', v) ∈ l := by
  induction l with
  | nil => simp [alistFind] at h
  | cons p rest ih =>
    obtain ⟨k', v'⟩ := p
    by_cases heq : key k = key k'
    · simp only [alistFind, if_pos heq] at h
      obtain rfl : v' = v := Option.some.inj h
      exact ⟨k', heq.symm, List.mem_cons_self _ _⟩
    · simp only [alistFind, if_neg heq] at h
      obtain ⟨k'', hk, hm⟩ := ih h
      exact ⟨k'', hk, List.mem_cons_of_mem _ hm⟩

@[simp]
theorem findNode_decl (s : VisState) (d : Nat) :
    s.findNode (.decl d) = alistFind id d s.DeclNodes := rfl

@[simp]
theorem findNode_type (s : VisState) (t : QualType) :
    s.findNode (.type t) = alistFind QualType.key t s.TypeNodes := rfl

theorem findNode_insertNode_self (s : VisState) (k : NodeKey)
    (dn : DumpNode) : (s.insertNode k dn).findNode k = some dn := by
  cases k <;> simp [VisState.insertNode, alistFind_insert_self]

theorem findNode_insertNode_ne (s : VisState) {k k2 : NodeKey}
    (dn : DumpNode) (h : k ≠ k2) :
    (s.insertNode k dn).findNode k2 = s.findNode k2 := by
  cases k with
  | decl d =>
    cases k2 with
    | decl d2 =>
      have hd : d ≠ d2 := fun hh => h (by rw [hh])
      simp [VisState.insertNode, alistFind_insert_ne, hd]
    | type t2 => simp [VisState.insertNode]
  | type t =>
    cases k2 with
    | decl d2 => simp [VisState.insertNode]
    | type t2 =>
      have ht : QualType.key t ≠ QualType.key t2 :=
        fun hh => h (by rw [QualType.key_inj hh])
      simp only [VisState.insertNode, findNode_type]
      exact alistFind_insert_ne _ _ _ _ _ ht

@[simp]
theorem insertNode_NodeCount (s : VisState) (k : NodeKey) (dn : DumpNode) :
    (s.insertNode k dn).NodeCount = s.NodeCount := by cases k <;> rfl

@[simp]
theorem insertNode_FileCount (s : VisState) (k : NodeKey) (dn : DumpNode) :
    (s.insertNode k dn).FileCount = s.FileCount := by cases k <;> rfl

@[simp]
theorem insertNode_RequireComplete (s : VisState) (k : NodeKey)
    (dn : DumpNode) :
    (s.insertNode k dn).RequireComplete = s.RequireComplete := by
  cases k <;> rfl

@[simp]
theorem insertNode_Queue (s : VisState) (k : NodeKey) (dn : DumpNode) :
    (s.insertNode k dn).Queue = s.Queue := by cases k <;> rfl

@[simp]
theorem insertNode_FileQueue (s : VisState) (k : NodeKey) (dn : DumpNode) :
    (s.insertNode k dn).FileQueue = s.FileQueue := by cases k <;> rfl

@[simp]
theorem insertNode_FileNodes (s : VisState) (k : NodeKey) (dn : DumpNode) :
    (s.insertNode k dn).FileNodes = s.FileNodes := by cases k <;> rfl

@[simp]
theorem insertNode_Output (s : VisState) (k : NodeKey) (dn : DumpNode) :
    (s.insertNode k dn).Output = s.Output := by cases k <;> rfl

theorem findNode_eq_of_maps {s s' : VisState} (hd : s'.DeclNodes = s.DeclNodes)
    (ht : s'.TypeNodes = s.TypeNodes) (k : NodeKey) :
    s'.findNode k = s.findNode k := by
  cases k <;> simp [hd, ht]

@[simp]
theorem findNode_emit (str : String) (s : VisState) (k : NodeKey) :
    (emit str s).findNode k = s.findNode k := by cases k <;> rfl

@[simp]
theorem findNode_set_nc_q (s : VisState) (n : Nat) (q : List NodeKey)
    (k2 : NodeKey) :
    ({ s with NodeCount := n, Queue := q } : VisState).findNode k2 =
      s.findNode k2 := by
  cases k2 <;> rfl

@[simp]
theorem findNode_set_nc (s : VisState) (n : Nat) (k2 : NodeKey) :
    ({ s with NodeCount := n } : VisState).findNode k2 = s.findNode k2 := by
  cases k2 <;> rfl

@[simp]
theorem findNode_set_q (s : VisState) (q : List NodeKey) (k2 : NodeKey) :
    ({ s with Queue := q } : VisState).findNode k2 = s.findNode k2 := by
  cases k2 <;> rfl

@[simp]
theorem findNode_set_rc (s : VisState) (b : Bool) (k2 : NodeKey) :
    ({ s with RequireComplete := b } : VisState).findNode k2 =
      s.findNode k2 := by
  cases k2 <;> rfl

@[simp]
theorem findNode_set_files (s : VisState) (i : Nat) (fn : List (Nat × Nat))
    (fq : List Nat) (k2 : NodeKey) :
    ({ s with FileCount := i, FileNodes := fn, FileQueue := fq } :
      VisState).findNode k2 = s.findNode k2 := by
  cases k2 <;> rfl

@[simp]
theorem findNode_set_fq (s : VisState) (fq : List Nat) (k2 : NodeKey) :
    ({ s with FileQueue := fq } : VisState).findNode k2 = s.findNode k2 := by
  cases k2 <;> rfl

/-!
Defining equations and basic facts of the registration operation.
-/

theorem addDumpNodeImpl_unseen (k : NodeKey) (c : Bool) (s : VisState)
    (hf : s.findNode k = none) :
    AddDumpNodeImpl k c s =
      (let s1 := { s.insertNode k ⟨s.NodeCount + 1, c⟩ with
                   NodeCount := s.NodeCount + 1 }
       if c || !s1.RequireComplete then
         (s.NodeCount + 1, { s1 with Queue := s1.Queue ++ [k] })
       else (s.NodeCount + 1, s1)) := by
  unfold AddDumpNodeImpl
  rw [hf]

theorem addDumpNodeImpl_seen (k : NodeKey) (c : Bool) (s : VisState)
    (dn : DumpNode) (hf : s.findNode k = some dn) :
    AddDumpNodeImpl k c s =
      (if c && !dn.Complete then
        let s1 := s.insertNode k { dn with Complete := true }
        (dn.Index, { s1 with Queue := s1.Queue ++ [k] })
      else (dn.Index, s)) := by
  unfold AddDumpNodeImpl
  rw [hf]

theorem addDumpNodeImpl_basics (k : NodeKey) (c : Bool) (s : VisState) :
    (AddDumpNodeImpl k c s).2.RequireComplete = s.RequireComplete ∧
    (AddDumpNodeImpl k c s).2.Output = s.Output ∧
    (AddDumpNodeImpl k c s).2.FileQueue = s.FileQueue ∧
    (AddDumpNodeImpl k c s).2.FileNodes = s.FileNodes ∧
    (AddDumpNodeImpl k c s).2.FileCount = s.FileCount ∧
    (∃ q, (AddDumpNodeImpl k c s).2.Queue = s.Queue ++ q) := by
  cases hf : s.findNode k with
  | none =>
    rw [addDumpNodeImpl_unseen k c s hf]
    by_cases hc : (c || !s.RequireComplete) = true
    · exact ⟨by simp [hc], by simp [hc], by simp [hc], by simp [hc],
        by simp [hc], ⟨[k], by simp [hc]⟩⟩
    · exact ⟨by simp [hc], by simp [hc], by simp [hc], by simp [hc],
        by simp [hc], ⟨[], by simp [hc]⟩⟩
  | some dn =>
    rw [addDumpNodeImpl_seen k c s dn hf]
    by_cases hc : (c && !dn.Complete) = true
    · exact ⟨by simp [hc], by simp [hc], by simp [hc], by simp [hc],
        by simp [hc], ⟨[k], by simp [hc]⟩⟩
    · exact ⟨by simp [hc], by simp [hc], by simp [hc], by simp [hc],
        by simp [hc], ⟨[], by simp [hc]⟩⟩

theorem addDumpNodeImpl_findNode_self (k : NodeKey) (c : Bool)
    (s : VisState) :
    (AddDumpNodeImpl k c s).2.findNode k =
      some ⟨(AddDumpNodeImpl k c s).1, s.nodeComplete k || c⟩ := by
  cases hf : s.findNode k with
  | none =>
    rw [addDumpNodeImpl_unseen k c s hf]
    by_cases hc : (c || !s.RequireComplete) = true <;>
      cases k <;>
      simp [hc, VisState.nodeComplete, hf, VisState.insertNode,
        alistFind_insert_self]
  | some dn =>
    rw [addDumpNodeImpl_seen k c s dn hf]
    by_cases hc : (c && !dn.Complete) = true
    · obtain ⟨hc1, hc2⟩ : c = true ∧ dn.Complete = false := by simpa using hc
      cases k <;>
        simp [hc, VisState.nodeComplete, hf, hc1, hc2, VisState.insertNode,
          alistFind_insert_self]
    · have hor : (dn.Complete || c) = dn.Complete := by
        cases hb : dn.Complete <;> cases hcc : c <;> simp_all
      simp [hc, VisState.nodeComplete, hf, hor]

theorem addDumpNodeImpl_maps (k : NodeKey) (c : Bool) (s : VisState) :
    ∃ v : DumpNode,
      ((AddDumpNodeImpl k c s).2.DeclNodes = (s.insertNode k v).DeclNodes ∧
       (AddDumpNodeImpl k c s).2.TypeNodes = (s.insertNode k v).TypeNodes) ∨
      ((AddDumpNodeImpl k c s).2.DeclNodes = s.DeclNodes ∧
       (AddDumpNodeImpl k c s).2.TypeNodes = s.TypeNodes) := by
  cases hf : s.findNode k with
  | none =>
    rw [addDumpNodeImpl_unseen k c s hf]
    by_cases hc : (c || !s.RequireComplete) = true
    · exact ⟨⟨s.NodeCount + 1, c⟩, Or.inl ⟨by simp [hc], by simp [hc]⟩⟩
    · exact ⟨⟨s.NodeCount + 1, c⟩, Or.inl ⟨by simp [hc], by simp [hc]⟩⟩
  | some dn =>
    rw [addDumpNodeImpl_seen k c s dn hf]
    by_cases hc : (c && !dn.Complete) = true
    · exact ⟨⟨dn.Index, true⟩, Or.inl ⟨by simp [hc], by simp [hc]⟩⟩
    · exact ⟨⟨0, false⟩, Or.inr ⟨by simp [hc], by simp [hc]⟩⟩

theorem addDumpNodeImpl_findNode_ne (k k2 : NodeKey) (c : Bool)
    (s : VisState) (h : k2 ≠ k) :
    (AddDumpNodeImpl k c s).2.findNode k2 = s.findNode k2 := by
  obtain ⟨v, hm | hm⟩ := addDumpNodeImpl_maps k c s
  · rw [findNode_eq_of_maps hm.1 hm.2 k2,
      findNode_insertNode_ne _ _ (Ne.symm h)]
  · rw [findNode_eq_of_maps hm.1 hm.2 k2]

theorem chain_alistInsert_keys {α β : Type} (key : α → Nat) (k : α) (v : β) :
    ∀ {l : List (α × β)}, List.Chain' (· < ·) (mapKeys key l) →
      List.Chain' (· < ·) (mapKeys key (alistInsert key k v l)) := by
  intro l
  induction l with
  | nil =>
    intro _
    simp [alistInsert, mapKeys]
  | cons p rest ih =>
    obtain ⟨k', v'⟩ := p
    intro hc
    have hc2 : List.Chain' (· < ·) (mapKeys key rest) := by
      simpa [mapKeys] using List.Chain'.tail (by simpa [mapKeys] using hc)
    by_cases h1 : key k < key k'
    · rw [alistInsert, if_pos h1]
      simp only [mapKeys, List.map_cons] at hc ⊢
      exact List.chain'_cons.mpr ⟨h1, hc⟩
    · by_cases h2 : key k = key k'
      · rw [alistInsert, if_neg h1, if_pos h2]
        simp only [mapKeys, List.map_cons] at hc ⊢
        rw [h2]
        exact hc
      · rw [alistInsert, if_neg h1, if_neg h2]
        have hki : key k' < key k := by omega
        have hr := ih hc2
        simp only [mapKeys, List.map_cons] at hc ⊢
        rw [List.chain'_cons']
        refine ⟨?_, by simpa [mapKeys] using hr⟩
        intro b hb
        cases rest with
        | nil =>
          simp [alistInsert, mapKeys] at hb
          omega
        | cons q qs =>
          obtain ⟨kq, vq⟩ := q
          have hkq : key k' < key kq := by
            have hh := (List.chain'_cons.mp (by simpa [mapKeys] using hc)).1
            exact hh
          by_cases hik : key k < key kq
          · rw [alistInsert, if_pos hik] at hb
            simp [mapKeys] at hb
            omega
          · by_cases hieq : key k = key kq
            · rw [alistInsert, if_neg hik, if_pos hieq] at hb
              simp [mapKeys] at hb
              omega
            · rw [alistInsert, if_neg hik, if_neg hieq] at hb
              simp [mapKeys] at hb
              omega

theorem wellFormed_insertNode {s : VisState} (h : WellFormedMaps s)
    (k : NodeKey) (dn : DumpNode) : WellFormedMaps (s.insertNode k dn) := by
  cases k with
  | decl d =>
    exact ⟨chain_alistInsert_keys id d dn h.1, h.2⟩
  | type t =>
    exact ⟨h.1, chain_alistInsert_keys QualType.key t dn h.2⟩

theorem wellFormed_addDumpNodeImpl {s : VisState} (h : WellFormedMaps s)
    (k : NodeKey) (c : Bool) :
    WellFormedMaps (AddDumpNodeImpl k c s).2 := by
  obtain ⟨v, ⟨hd, ht⟩ | ⟨hd, ht⟩⟩ := addDumpNodeImpl_maps k c s
  · exact ⟨by rw [hd]; exact (wellFormed_insertNode h k v).1,
      by rw [ht]; exact (wellFormed_insertNode h k v).2⟩
  · exact ⟨by rw [hd]; exact h.1, by rw [ht]; exact h.2⟩

theorem addDumpNodeImpl_fst_seen (k : NodeKey) (c : Bool) (s : VisState)
    (dn : DumpNode) (hf : s.findNode k = some dn) :
    (AddDumpNodeImpl k c s).1 = dn.Index := by
  rw [addDumpNodeImpl_seen k c s dn hf]
  by_cases hc : (c && !dn.Complete) = true <;> simp [hc]

/-!
The `Preserves` relation and its closure under every traversal
operation.
-/

theorem preserves_refl (s : VisState) : Preserves s s :=
  ⟨rfl, ⟨"", by simp⟩, ⟨[], by simp⟩,
   fun _ dn h => ⟨dn, h, rfl, fun hc => hc⟩, fun hw => hw⟩

theorem preserves_trans {s1 s2 s3 : VisState} (h12 : Preserves s1 s2)
    (h23 : Preserves s2 s3) : Preserves s1 s3 := by
  obtain ⟨hr12, ⟨t12, ho12⟩, ⟨f12, hf12⟩, hn12, hw12⟩ := h12
  obtain ⟨hr23, ⟨t23, ho23⟩, ⟨f23, hf23⟩, hn23, hw23⟩ := h23
  refine ⟨hr23.trans hr12, ⟨t12 ++ t23, by rw [ho23, ho12, String.append_assoc]⟩,
    ⟨f12 ++ f23, by rw [hf23, hf12, List.append_assoc]⟩, ?_,
    fun hw => hw23 (hw12 hw)⟩
  intro k dn h
  obtain ⟨dn', h', hi', hc'⟩ := hn12 k dn h
  obtain ⟨dn'', h'', hi'', hc''⟩ := hn23 k dn' h'
  exact ⟨dn'', h'', hi''.trans hi', fun hc => hc'' (hc' hc)⟩

theorem preserves_emit (str : String) (s : VisState) :
    Preserves s (emit str s) :=
  ⟨rfl, ⟨str, rfl⟩, ⟨[], by simp [emit]⟩,
   fun k dn h => ⟨dn, by rw [findNode_emit]; exact h, rfl, fun hc => hc⟩,
   fun hw => hw⟩

theorem preserves_setQueue (s : VisState) (q : List NodeKey) :
    Preserves s { s with Queue := q } :=
  ⟨rfl, ⟨"", by simp⟩, ⟨[], by simp⟩,
   fun k dn h => ⟨dn, by rw [findNode_set_q]; exact h, rfl, fun hc => hc⟩,
   fun hw => hw⟩

theorem preserves_addDumpNodeImpl (k : NodeKey) (c : Bool) (s : VisState) :
    Preserves s (AddDumpNodeImpl k c s).2 := by
  obtain ⟨hr, ho, hfq, _, _, hq⟩ := addDumpNodeImpl_basics k c s
  refine ⟨hr, ⟨"", by simp [ho]⟩, ⟨[], by simp [hfq]⟩, ?_,
    fun hw => wellFormed_addDumpNodeImpl hw k c⟩
  intro k2 dn h
  by_cases hk : k2 = k
  · subst hk
    refine ⟨⟨(AddDumpNodeImpl k2 c s).1, s.nodeComplete k2 || c⟩,
      addDumpNodeImpl_findNode_self k2 c s, ?_, ?_⟩
    · exact addDumpNodeImpl_fst_seen k2 c s dn h
    · intro hc
      simp [VisState.nodeComplete, h, hc]
  · exact ⟨dn, by rw [addDumpNodeImpl_findNode_ne k k2 c s hk]; exact h,
      rfl, fun hc => hc⟩

theorem preserves_AddDumpNode (A : AST) (d : Nat) (c : Bool)
    (s : VisState) : Preserves s (AddDumpNode A d c s).2 :=
  preserves_addDumpNodeImpl _ c s

theorem preserves_AddDumpNodeType (t : QualType) (c : Bool)
    (s : VisState) : Preserves s (AddDumpNodeType t c s).2 :=
  preserves_addDumpNodeImpl _ c s

theorem preserves_AddDumpFile (f : Nat) (s : VisState) :
    Preserves s (AddDumpFile f s).2 := by
  unfold AddDumpFile
  cases hf : alistFind id f s.FileNodes with
  | some i => exact preserves_refl s
  | none =>
    refine ⟨rfl, ⟨"", by simp⟩, ⟨[f], by simp⟩, ?_, fun hw => hw⟩
    intro k dn h
    exact ⟨dn, by rw [findNode_set_files]; exact h, rfl, fun hc => hc⟩

theorem preserves_pair_AddDumpNode {A : AST} {d : Nat} {c : Bool}
    {s s' : VisState} {i : Nat} (h : AddDumpNode A d c s = (i, s')) :
    Preserves s s' := by
  have hp := preserves_AddDumpNode A d c s
  rwa [h] at hp

theorem preserves_pair_AddDumpNodeType {t : QualType} {c : Bool}
    {s s' : VisState} {i : Nat} (h : AddDumpNodeType t c s = (i, s')) :
    Preserves s s' := by
  have hp := preserves_AddDumpNodeType t c s
  rwa [h] at hp

theorem preserves_pair_AddDumpFile {f : Nat} {s s' : VisState} {i : Nat}
    (h : AddDumpFile f s = (i, s')) : Preserves s s' := by
  have hp := preserves_AddDumpFile f s
  rwa [h] at hp

theorem preserves_GetContextIdRef (A : AST) (dc : Option Nat)
    (s : VisState) : Preserves s (GetContextIdRef A dc s).2 := by
  cases dc with
  | none => exact preserves_refl s
  | some d => exact preserves_AddDumpNode A d false s

theorem preserves_GetTypeIdRef (t : QualType) (c : Bool) (s : VisState) :
    Preserves s (GetTypeIdRef t c s).2 := by
  unfold GetTypeIdRef
  rcases h0 : AddDumpNodeType t c s with ⟨i0, s0⟩
  by_cases hq : t.hasLocalQualifiers = true
  · rcases h1 : AddDumpNodeType t.getLocalUnqualifiedType c s0 with ⟨i1, s1⟩
    simp only [h0, hq, if_true, h1]
    exact preserves_trans (preserves_pair_AddDumpNodeType h0)
      (preserves_pair_AddDumpNodeType h1)
  · simp only [h0, hq, if_false]
    exact preserves_pair_AddDumpNodeType h0

theorem preserves_pair_GetTypeIdRef {t : QualType} {c : Bool}
    {s s' : VisState} {r : Nat × Bool × Bool × Bool}
    (h : GetTypeIdRef t c s = (r, s')) : Preserves s s' := by
  have hp := preserves_GetTypeIdRef t c s
  rwa [h] at hp

theorem preserves_PrintTypeIdRef (t : QualType) (c : Bool) (s : VisState) :
    Preserves s (PrintTypeIdRef t c s) := by
  unfold PrintTypeIdRef
  rcases h : GetTypeIdRef t c s with ⟨⟨i, qc, qv, qr⟩, s'⟩
  simp only [h]
  exact preserves_trans (preserves_pair_GetTypeIdRef h) (preserves_emit _ _)

theorem preserves_PrintIdAttribute (dn : DumpNode) (s : VisState) :
    Preserves s (PrintIdAttribute dn s) :=
  preserves_emit _ s

theorem preserves_PrintNameAttribute (name : String) (s : VisState) :
    Preserves s (PrintNameAttribute name s) :=
  preserves_emit _ s

theorem preserves_PrintTypeAttribute (t : QualType) (c : Bool)
    (s : VisState) : Preserves s (PrintTypeAttribute t c s) := by
  unfold PrintTypeAttribute
  exact preserves_trans (preserves_emit _ _)
    (preserves_trans (preserves_PrintTypeIdRef _ _ _) (preserves_emit _ _))

theorem preserves_PrintLocationAttribute (A : AST) (d : Nat)
    (s : VisState) : Preserves s (PrintLocationAttribute A d s) := by
  unfold PrintLocationAttribute
  cases hl : (A.info d).location with
  | none => exact preserves_refl s
  | some fl =>
    obtain ⟨f, line⟩ := fl
    rcases h : AddDumpFile f s with ⟨i, s'⟩
    simp only [h]
    exact preserves_trans (preserves_pair_AddDumpFile h) (preserves_emit _ _)

theorem preserves_PrintContextAttribute (A : AST) (d : Nat)
    (s : VisState) : Preserves s (PrintContextAttribute A d s) := by
  unfold PrintContextAttribute
  cases hctx : (A.info d).ctx with
  | none => exact preserves_refl s
  | some dc =>
    unfold GetContextIdRef
    rcases h : AddDumpNode A dc false s with ⟨i, s'⟩
    simp only [h]
    by_cases hi : i ≠ 0
    · rw [if_pos hi]
      by_cases hr : (A.info dc).kind = DeclKind.CXXRecord
      · rw [if_pos hr]
        cases (A.info d).access <;>
          exact preserves_trans (preserves_pair_AddDumpNode h)
            (preserves_trans (preserves_emit _ _) (preserves_emit _ _))
      · rw [if_neg hr]
        exact preserves_trans (preserves_pair_AddDumpNode h)
          (preserves_emit _ _)
    · rw [if_neg hi]
      exact preserves_pair_AddDumpNode h

theorem preserves_membersLoop (A : AST) (ds : List Nat) (acc : List Nat)
    (s : VisState) : Preserves s (membersLoop A ds acc s).2 := by
  induction ds generalizing acc s with
  | nil => exact preserves_refl s
  | cons d rest ih =>
    unfold membersLoop
    by_cases hskip : memberSkipped A d = true
    · rw [if_pos hskip]
      exact ih acc s
    · rw [if_neg hskip]
      rcases h : AddDumpNode A d true s with ⟨i, s'⟩
      simp only [h]
      by_cases hi : i ≠ 0
      · rw [if_pos hi]
        exact preserves_trans (preserves_pair_AddDumpNode h) (ih _ s')
      · rw [if_neg hi]
        exact preserves_trans (preserves_pair_AddDumpNode h) (ih _ s')

theorem preserves_pair_membersLoop {A : AST} {ds acc : List Nat}
    {s s' : VisState} {em : List Nat} (h : membersLoop A ds acc s = (em, s')) :
    Preserves s s' := by
  have hp := preserves_membersLoop A ds acc s
  rwa [h] at hp

theorem preserves_PrintMembersAttribute (A : AST) (dc : Nat)
    (s : VisState) : Preserves s (PrintMembersAttribute A dc s) := by
  unfold PrintMembersAttribute
  rcases h : membersLoop A (A.info dc).children [] s with ⟨em, s'⟩
  simp only [h]
  by_cases he : em.isEmpty
  · simp only [he, if_true]
    exact preserves_pair_membersLoop h
  · simp only [he, if_false]
    exact preserves_trans (preserves_pair_membersLoop h) (preserves_emit _ _)

theorem preserves_OutputTranslationUnitDecl (A : AST) (d : Nat)
    (dn : DumpNode) (s : VisState) :
    Preserves s (OutputTranslationUnitDecl A d dn s) := by
  unfold OutputTranslationUnitDecl
  show Preserves s (emit "/>\n"
    (if dn.Complete = true then
      PrintMembersAttribute A d
        (PrintNameAttribute "::" (PrintIdAttribute dn (emit "  <Namespace" s)))
    else
      PrintNameAttribute "::" (PrintIdAttribute dn (emit "  <Namespace" s))))
  by_cases hc : dn.Complete = true
  · rw [if_pos hc]
    exact preserves_trans (preserves_emit _ _)
      (preserves_trans (preserves_PrintIdAttribute _ _)
        (preserves_trans (preserves_PrintNameAttribute _ _)
          (preserves_trans (preserves_PrintMembersAttribute _ _ _)
            (preserves_emit _ _))))
  · rw [if_neg hc]
    exact preserves_trans (preserves_emit _ _)
      (preserves_trans (preserves_PrintIdAttribute _ _)
        (preserves_trans (preserves_PrintNameAttribute _ _)
          (preserves_emit _ _)))

theorem preserves_OutputNamespaceDecl (A : AST) (d : Nat) (dn : DumpNode)
    (s : VisState) : Preserves s (OutputNamespaceDecl A d dn s) := by
  unfold OutputNamespaceDecl
  show Preserves s (emit "/>\n"
    (if dn.Complete = true then
      PrintMembersAttribute A d
        (PrintContextAttribute A d (PrintNameAttribute (A.info d).name
          (PrintIdAttribute dn (emit "  <Namespace" s))))
    else
      PrintContextAttribute A d (PrintNameAttribute (A.info d).name
        (PrintIdAttribute dn (emit "  <Namespace" s)))))
  by_cases hc : dn.Complete = true
  · rw [if_pos hc]
    exact preserves_trans (preserves_emit _ _)
      (preserves_trans (preserves_PrintIdAttribute _ _)
        (preserves_trans (preserves_PrintNameAttribute _ _)
          (preserves_trans (preserves_PrintContextAttribute _ _ _)
            (preserves_trans (preserves_PrintMembersAttribute _ _ _)
              (preserves_emit _ _)))))
  · rw [if_neg hc]
    exact preserves_trans (preserves_emit _ _)
      (preserves_trans (preserves_PrintIdAttribute _ _)
        (preserves_trans (preserves_PrintNameAttribute _ _)
          (preserves_trans (preserves_PrintContextAttribute _ _ _)
            (preserves_emit _ _))))

theorem preserves_OutputTypedefDecl (A : AST) (d : Nat) (dn : DumpNode)
    (s : VisState) : Preserves s (OutputTypedefDecl A d dn s) := by
  unfold OutputTypedefDecl
  show Preserves s (emit "/>\n"
    (PrintLocationAttribute A d (PrintContextAttribute A d
      (PrintTypeAttribute (A.info d).tyType dn.Complete
        (PrintNameAttribute (A.info d).name
          (PrintIdAttribute dn (emit "  <Typedef" s)))))))
  exact preserves_trans (preserves_emit _ _)
    (preserves_trans (preserves_PrintIdAttribute _ _)
      (preserves_trans (preserves_PrintNameAttribute _ _)
        (preserves_trans (preserves_PrintTypeAttribute _ _ _)
          (preserves_trans (preserves_PrintContextAttribute _ _ _)
            (preserves_trans (preserves_PrintLocationAttribute _ _ _)
              (preserves_emit _ _))))))

theorem preserves_OutputDecl (A : AST) (d : Nat) (dn : DumpNode)
    (s : VisState) : Preserves s (OutputDecl A d dn s) := by
  unfold OutputDecl
  cases hk : (A.info d).kind
  case TranslationUnit => exact preserves_OutputTranslationUnitDecl A d dn s
  case Namespace => exact preserves_OutputNamespaceDecl A d dn s
  case Typedef => exact preserves_OutputTypedefDecl A d dn s
  case CXXRecord => exact preserves_emit _ _
  case AccessSpec => exact preserves_emit _ _
  case Other n => exact preserves_emit _ _

theorem preserves_OutputType (A : AST) (t : QualType) (dn : DumpNode)
    (s : VisState) : Preserves s (OutputType A t dn s) := by
  unfold OutputType
  by_cases hq : t.hasLocalQualifiers = true
  · simp only [hq, if_true]
    exact preserves_refl s
  · simp only [hq, if_false]
    exact preserves_emit _ _

theorem preserves_dispatchEntry (A : AST) (qe : NodeKey) (s : VisState) :
    Preserves s (dispatchEntry A qe s) := by
  unfold dispatchEntry
  cases qe with
  | decl d => exact preserves_OutputDecl A d _ s
  | type t => exact preserves_OutputType A t _ s

theorem preserves_ProcessQueue (A : AST) (fuel : Nat) :
    ∀ s s', ProcessQueue A fuel s = some s' → Preserves s s' := by
  induction fuel with
  | zero =>
    intro s s' h
    unfold ProcessQueue at h
    cases hq : s.Queue with
    | nil =>
      rw [hq] at h
      simp only [Option.some.injEq] at h
      rw [← h]
      exact preserves_refl s
    | cons qe rest => rw [hq] at h; simp at h
  | succ fuel ih =>
    intro s s' h
    unfold ProcessQueue at h
    cases hq : s.Queue with
    | nil =>
      rw [hq] at h
      simp only [Option.some.injEq] at h
      rw [← h]
      exact preserves_refl s
    | cons qe rest =>
      rw [hq] at h
      exact preserves_trans
        (preserves_trans (preserves_setQueue s rest)
          (preserves_dispatchEntry A qe _))
        (ih _ _ h)

theorem processQueue_queue_empty (A : AST) (fuel : Nat) :
    ∀ s s', ProcessQueue A fuel s = some s' → s'.Queue = [] := by
  induction fuel with
  | zero =>
    intro s s' h
    unfold ProcessQueue at h
    cases hq : s.Queue with
    | nil =>
      rw [hq] at h
      simp only [Option.some.injEq] at h
      rw [← h, hq]
    | cons qe rest => rw [hq] at h; simp at h
  | succ fuel ih =>
    intro s s' h
    unfold ProcessQueue at h
    cases hq : s.Queue with
    | nil =>
      rw [hq] at h
      simp only [Option.some.injEq] at h
      rw [← h, hq]
    | cons qe rest =>
      rw [hq] at h
      exact ih _ _ h

theorem QualType.unqual_of_no_quals {t : QualType}
    (h : t.hasLocalQualifiers = false) : t.getLocalUnqualifiedType = t := by
  obtain ⟨p, c, v, r⟩ := t
  simp only [QualType.hasLocalQualifiers, Bool.or_eq_false_iff] at h
  obtain ⟨⟨hc, hv⟩, hr⟩ := h
  simp [QualType.getLocalUnqualifiedType, hc, hv, hr]

theorem addDumpNodeImpl_pair_output {k : NodeKey} {c : Bool}
    {s s' : VisState} {i : Nat} (h : AddDumpNodeImpl k c s = (i, s')) :
    s'.Output = s.Output := by
  have hb := (addDumpNodeImpl_basics k c s).2.1
  rwa [h] at hb

theorem addDumpNodeImpl_pair_findNode_self {k : NodeKey} {c : Bool}
    {s s' : VisState} {i : Nat} (h : AddDumpNodeImpl k c s = (i, s')) :
    s'.findNode k = some ⟨i, s.nodeComplete k || c⟩ := by
  have hb := addDumpNodeImpl_findNode_self k c s
  rwa [h] at hb

/-- Full characterization of `GetTypeIdRef`: the returned flags are the
type's own qualifier bits, nothing is written to the output, and the
returned id is the index under which the unqualified form of the type is
registered. -/
theorem getTypeIdRef_spec (t : QualType) (c : Bool) (s : VisState) :
    (GetTypeIdRef t c s).1 =
      ((GetTypeIdRef t c s).1.1, t.qConst, t.qVolatile, t.qRestrict) ∧
    (GetTypeIdRef t c s).2.Output = s.Output ∧
    ∃ dn, (GetTypeIdRef t c s).2.findNode
        (.type t.getLocalUnqualifiedType) = some dn ∧
      dn.Index = (GetTypeIdRef t c s).1.1 := by
  unfold GetTypeIdRef
  rcases h0 : AddDumpNodeType t c s with ⟨i0, s0⟩
  by_cases hq : t.hasLocalQualifiers = true
  · rcases h1 : AddDumpNodeType t.getLocalUnqualifiedType c s0 with ⟨i1, s1⟩
    simp only [h0, hq, if_true, h1]
    refine ⟨by simp, ?_, ?_⟩
    · rw [addDumpNodeImpl_pair_output h1, addDumpNodeImpl_pair_output h0]
    · exact ⟨_, addDumpNodeImpl_pair_findNode_self h1, rfl⟩
  · have hq' : t.hasLocalQualifiers = false := by
      cases hh : t.hasLocalQualifiers
      · rfl
      · exact absurd hh hq
    simp only [h0, hq', Bool.false_eq_true, if_false]
    refine ⟨by simp, addDumpNodeImpl_pair_output h0, ?_⟩
    rw [QualType.unqual_of_no_quals hq']
    exact ⟨_, addDumpNodeImpl_pair_findNode_self h0, rfl⟩

theorem addDumpNodeImpl_unseen_fst (k : NodeKey) (c : Bool) (s : VisState)
    (hf : s.findNode k = none) :
    (AddDumpNodeImpl k c s).1 = s.NodeCount + 1 := by
  rw [addDumpNodeImpl_unseen k c s hf]
  by_cases hq : (c || !s.RequireComplete) = true <;> simp [hq]

theorem addDumpNodeImpl_unseen_nodeCount (k : NodeKey) (c : Bool)
    (s : VisState) (hf : s.findNode k = none) :
    (AddDumpNodeImpl k c s).2.NodeCount = s.NodeCount + 1 := by
  rw [addDumpNodeImpl_unseen k c s hf]
  by_cases hq : (c || !s.RequireComplete) = true <;> simp [hq]

theorem addDumpFile_unseen (f : Nat) (s : VisState)
    (hf : alistFind id f s.FileNodes = none) :
    AddDumpFile f s =
      (s.FileCount + 1,
       { s with FileCount := s.FileCount + 1,
                FileNodes := alistInsert id f (s.FileCount + 1) s.FileNodes,
                FileQueue := s.FileQueue ++ [f] }) := by
  unfold AddDumpFile
  rw [hf]

theorem zeroFree_initial : ZeroFree VisState.initial := by
  intro k dn h
  cases k <;> simp [VisState.initial, alistFind] at h

theorem zeroFree_addDumpNodeImpl {s : VisState} (hz : ZeroFree s)
    (k : NodeKey) (c : Bool) : ZeroFree (AddDumpNodeImpl k c s).2 := by
  intro k2 dn h
  by_cases hk : k2 = k
  · subst hk
    rw [addDumpNodeImpl_findNode_self k2 c s] at h
    obtain rfl : dn = ⟨(AddDumpNodeImpl k2 c s).1, s.nodeComplete k2 || c⟩ :=
      Option.some.inj h.symm
    cases hf : s.findNode k2 with
    | none => simp [addDumpNodeImpl_unseen_fst k2 c s hf]
    | some dn0 =>
      have := hz k2 dn0 hf
      simp [addDumpNodeImpl_fst_seen k2 c s dn0 hf]
      omega
  · rw [addDumpNodeImpl_findNode_ne k k2 c s hk] at h
    exact hz k2 dn h

theorem mem_setInsert {j i : Nat} :
    ∀ {l : List Nat}, j ∈ setInsert i l ↔ j = i ∨ j ∈ l := by
  intro l
  induction l with
  | nil => simp [setInsert]
  | cons a rest ih =>
    by_cases h1 : i < a
    · simp [setInsert, h1]
    · by_cases h2 : i = a
      · subst h2
        rw [setInsert, if_neg h1, if_pos rfl]
        simp only [List.mem_cons]
        tauto
      · rw [setInsert, if_neg h1, if_neg h2]
        simp only [List.mem_cons, ih]
        tauto

theorem chain_setInsert {i : Nat} :
    ∀ {l : List Nat}, List.Chain' (· < ·) l →
      List.Chain' (· < ·) (setInsert i l) := by
  intro l
  induction l with
  | nil =>
    intro _
    simp [setInsert]
  | cons a rest ih =>
    intro hc
    by_cases h1 : i < a
    · rw [setInsert, if_pos h1]
      exact List.chain'_cons.mpr ⟨h1, hc⟩
    · by_cases h2 : i = a
      · rw [setInsert, if_neg h1, if_pos h2]
        exact hc
      · rw [setInsert, if_neg h1, if_neg h2]
        have hai : a < i := by omega
        have hr := ih hc.tail
        rw [List.chain'_cons']
        refine ⟨?_, hr⟩
        intro b hb
        cases rest with
        | nil =>
          simp [setInsert] at hb
          omega
        | cons r rs =>
          have har : a < r := (List.chain'_cons.mp hc).1
          by_cases hir : i < r
          · rw [setInsert, if_pos hir] at hb
            simp at hb
            omega
          · by_cases hieq : i = r
            · rw [setInsert, if_neg hir, if_pos hieq] at hb
              simp at hb
              omega
            · rw [setInsert, if_neg hir, if_neg hieq] at hb
              simp at hb
              omega

theorem preserves_complete_node {s s' : VisState} (hp : Preserves s s')
    {k : NodeKey} {i : Nat} (h : s.findNode k = some ⟨i, true⟩) :
    s'.findNode k = some ⟨i, true⟩ := by
  obtain ⟨dn', h', hi, hcm⟩ := hp.2.2.2.1 k ⟨i, true⟩ h
  have hb : dn'.Complete = true := hcm rfl
  have hd : dn' = ⟨i, true⟩ := by
    obtain ⟨i', b'⟩ := dn'
    simp_all
  rw [hd] at h'
  exact h'

theorem membersLoop_invariant (A : AST) :
    ∀ (ds : List Nat) (acc : List Nat) (s : VisState), ZeroFree s →
    (membersLoop A ds acc s).2.Output = s.Output ∧
    ZeroFree (membersLoop A ds acc s).2 ∧
    (List.Chain' (· < ·) acc →
      List.Chain' (· < ·) (membersLoop A ds acc s).1) ∧
    (∀ d ∈ ds, memberSkipped A d = false →
      ∃ i, (membersLoop A ds acc s).2.findNode
          (.decl (A.info d).canonical) = some ⟨i, true⟩ ∧
        i ∈ (membersLoop A ds acc s).1) ∧
    (∀ i ∈ (membersLoop A ds acc s).1, i ∈ acc ∨
      ∃ d ∈ ds, memberSkipped A d = false ∧
        (membersLoop A ds acc s).2.findNode
          (.decl (A.info d).canonical) = some ⟨i, true⟩) ∧
    (∀ j ∈ acc, j ∈ (membersLoop A ds acc s).1) := by
  intro ds
  induction ds with
  | nil =>
    intro acc s hz
    refine ⟨rfl, hz, fun hh => hh, ?_, ?_, ?_⟩
    · intro d hd
      simp at hd
    · intro i hi
      exact Or.inl hi
    · intro j hj
      exact hj
  | cons d rest ih =>
    intro acc s hz
    by_cases hskip : memberSkipped A d = true
    · have heq : membersLoop A (d :: rest) acc s = membersLoop A rest acc s := by
        simp only [membersLoop]
        rw [if_pos hskip]
      obtain ⟨h1, h2, h3, h4, h5, h6⟩ := ih acc s hz
      rw [heq]
      refine ⟨h1, h2, h3, ?_, ?_, h6⟩
      · intro d' hd' hns
        rcases List.mem_cons.mp hd' with rfl | hmem
        · rw [hns] at hskip
          cases hskip
        · exact h4 d' hmem hns
      · intro i hi
        rcases h5 i hi with hacc | ⟨d', hd', hns, hf⟩
        · exact Or.inl hacc
        · exact Or.inr ⟨d', List.mem_cons_of_mem _ hd', hns, hf⟩
    · have hskip' : memberSkipped A d = false := by
        cases hh : memberSkipped A d
        · rfl
        · exact absurd hh hskip
      rcases hadd : AddDumpNode A d true s with ⟨i, s1⟩
      have hadd' : AddDumpNodeImpl (.decl (A.info d).canonical) true s =
          (i, s1) := hadd
      have hz1 : ZeroFree s1 := by
        have hzz := zeroFree_addDumpNodeImpl hz (.decl (A.info d).canonical)
          true
        rwa [hadd'] at hzz
      have hifind : s1.findNode (.decl (A.info d).canonical) =
          some ⟨i, true⟩ := by
        have hself := addDumpNodeImpl_pair_findNode_self hadd'
        simpa using hself
      have hine : i ≠ 0 := by
        have h0 : 0 < i := hz1 _ _ hifind
        omega
      have heq : membersLoop A (d :: rest) acc s =
          membersLoop A rest (setInsert i acc) s1 := by
        simp only [membersLoop]
        rw [if_neg hskip]
        simp only [hadd]
        rw [if_pos hine]
      obtain ⟨h1, h2, h3, h4, h5, h6⟩ := ih (setInsert i acc) s1 hz1
      rw [heq]
      have hout1 : s1.Output = s.Output := addDumpNodeImpl_pair_output hadd'
      have hpres : Preserves s1 (membersLoop A rest (setInsert i acc) s1).2 :=
        preserves_membersLoop A rest (setInsert i acc) s1
      refine ⟨h1.trans hout1, h2, ?_, ?_, ?_, ?_⟩
      · intro hacc
        exact h3 (chain_setInsert hacc)
      · intro d' hd' hns
        rcases List.mem_cons.mp hd' with rfl | hmem
        · exact ⟨i, preserves_complete_node hpres hifind,
            h6 i (mem_setInsert.mpr (Or.inl rfl))⟩
        · exact h4 d' hmem hns
      · intro i' hi'
        rcases h5 i' hi' with hin | ⟨d', hd', hns', hf⟩
        · rcases mem_setInsert.mp hin with rfl | hacc
          · exact Or.inr ⟨d, List.mem_cons_self _ _, hskip',
              preserves_complete_node hpres hifind⟩
          · exact Or.inl hacc
        · exact Or.inr ⟨d', List.mem_cons_of_mem _ hd', hns', hf⟩
      · intro j hj
        exact h6 j (mem_setInsert.mpr (Or.inr hj))

theorem processFileQueueAux_output (A : AST) :
    ∀ (fs : List Nat) (s : VisState),
      (processFileQueueAux A fs s).Output =
        s.Output ++ strJoin (fs.map (fileElement A s)) := by
  intro fs
  induction fs with
  | nil =>
    intro s
    simp [processFileQueueAux, strJoin]
  | cons f rest ih =>
    intro s
    simp only [processFileQueueAux, List.map_cons, strJoin]
    rw [ih (emit (fileElement A s f) s)]
    show (s.Output ++ fileElement A s f)
        ++ strJoin (rest.map (fileElement A s)) =
      s.Output ++ (fileElement A s f ++ strJoin (rest.map (fileElement A s)))
    rw [String.append_assoc]

theorem processFileQueue_output (A : AST) (s : VisState) :
    (ProcessFileQueue A s).Output =
      s.Output ++ strJoin (s.FileQueue.map (fileElement A s)) := by
  have h := processFileQueueAux_output A s.FileQueue
    { s with FileQueue := [] }
  exact h

theorem processFileQueueAux_findNode (A : AST) :
    ∀ (fs : List Nat) (s : VisState) (k : NodeKey),
      (processFileQueueAux A fs s).findNode k = s.findNode k := by
  intro fs
  induction fs with
  | nil =>
    intro s k
    rfl
  | cons f rest ih =>
    intro s k
    simp only [processFileQueueAux]
    rw [ih, findNode_emit]

theorem processFileQueue_findNode (A : AST) (s : VisState) (k : NodeKey) :
    (ProcessFileQueue A s).findNode k = s.findNode k := by
  unfold ProcessFileQueue
  rw [processFileQueueAux_findNode A s.FileQueue { s with FileQueue := [] } k,
    findNode_set_fq]

theorem foldl_addDumpNode_output (A : AST) :
    ∀ (ds : List Nat) (s : VisState),
      (ds.foldl (fun s d => (AddDumpNode A d true s).2) s).Output =
        s.Output := by
  intro ds
  induction ds with
  | nil =>
    intro s
    rfl
  | cons d rest ih =>
    intro s
    simp only [List.foldl_cons]
    rw [ih]
    exact (addDumpNodeImpl_basics _ true s).2.1

theorem lookupStartAux_output (A : AST) :
    ∀ (bound : Nat) (segs : List String) (dc : Nat) (s : VisState),
      (lookupStartAux A bound segs dc s).Output = s.Output := by
  intro bound
  induction bound with
  | zero =>
    intro segs dc s
    cases segs <;> rfl
  | succ b ih =>
    intro segs dc s
    cases segs with
    | nil => rfl
    | cons cur rest =>
      simp only [lookupStartAux]
      by_cases hr : rest.isEmpty
      · rw [if_pos hr]
        exact foldl_addDumpNode_output A (A.lookup dc cur) s
      · rw [if_neg hr]
        have haux : ∀ (ms : List Nat) (s : VisState),
            ((ms.foldl (fun s d =>
              if (A.info d).isDeclContext = true then
                lookupStartAux A b rest d s
              else s) s)).Output = s.Output := by
          intro ms
          induction ms with
          | nil =>
            intro s
            rfl
          | cons m ms ihm =>
            intro s
            simp only [List.foldl_cons]
            rw [ihm]
            by_cases hdc : (A.info m).isDeclContext = true
            · rw [if_pos hdc, ih rest m s]
            · rw [if_neg hdc]
        exact haux _ s

theorem seedStart_output (A : AST) (names : List String) (s : VisState) :
    (seedStart A names s).Output = s.Output := by
  unfold seedStart
  by_cases hn : (!names.isEmpty) = true
  · rw [if_pos hn]
    have haux : ∀ (ns : List String) (s : VisState),
        (ns.foldl (fun s n =>
          LookupStart A (splitScopedName n) A.tuDecl s) s).Output =
          s.Output := by
      intro ns
      induction ns with
      | nil =>
        intro s
        rfl
      | cons n ns ihn =>
        intro s
        simp only [List.foldl_cons]
        rw [ihn]
        exact lookupStartAux_output A _ _ _ s
    exact haux names s
  · rw [if_neg hn]
    exact (addDumpNodeImpl_basics _ true s).2.1

theorem preserves_lookupStartAux (A : AST) :
    ∀ (bound : Nat) (segs : List String) (dc : Nat) (s : VisState),
      Preserves s (lookupStartAux A bound segs dc s) := by
  intro bound
  induction bound with
  | zero =>
    intro segs dc s
    cases segs with
    | nil => exact preserves_refl s
    | cons a l => exact preserves_refl s
  | succ b ih =>
    intro segs dc s
    cases segs with
    | nil => exact preserves_refl s
    | cons cur rest =>
      simp only [lookupStartAux]
      by_cases hr : rest.isEmpty
      · rw [if_pos hr]
        have haux : ∀ (ms : List Nat) (s : VisState),
            Preserves s
              (ms.foldl (fun s d => (AddDumpNode A d true s).2) s) := by
          intro ms
          induction ms with
          | nil =>
            intro s
            exact preserves_refl s
          | cons m ms ihm =>
            intro s
            simp only [List.foldl_cons]
            exact preserves_trans (preserves_AddDumpNode A m true s) (ihm _)
        exact haux _ s
      · rw [if_neg hr]
        have haux : ∀ (ms : List Nat) (s : VisState),
            Preserves s (ms.foldl (fun s d =>
              if (A.info d).isDeclContext = true then
                lookupStartAux A b rest d s
              else s) s) := by
          intro ms
          induction ms with
          | nil =>
            intro s
            exact preserves_refl s
          | cons m ms ihm =>
            intro s
            simp only [List.foldl_cons]
            refine preserves_trans ?_ (ihm _)
            by_cases hdc : (A.info m).isDeclContext = true
            · rw [if_pos hdc]
              exact ih rest m s
            · rw [if_neg hdc]
              exact preserves_refl s
        exact haux _ s

theorem preserves_seedStart (A : AST) (names : List String) (s : VisState) :
    Preserves s (seedStart A names s) := by
  unfold seedStart
  by_cases hn : (!names.isEmpty) = true
  · rw [if_pos hn]
    have haux : ∀ (ns : List String) (s : VisState),
        Preserves s (ns.foldl (fun s n =>
          LookupStart A (splitScopedName n) A.tuDecl s) s) := by
      intro ns
      induction ns with
      | nil =>
        intro s
        exact preserves_refl s
      | cons n ns ihn =>
        intro s
        simp only [List.foldl_cons]
        exact preserves_trans (preserves_lookupStartAux A _ _ _ s) (ihn _)
    exact haux names s
  · rw [if_neg hn]
    exact preserves_AddDumpNode A A.tuDecl true s

theorem handleTU_decompose (A : AST) (startNames : List String)
    (fuel : Nat) (s0 sF : VisState)
    (h : HandleTranslationUnit A startNames fuel s0 = some sF) :
    ∃ s1 s2,
      ProcessQueue A fuel (emit xmlHeader (seedStart A startNames s0)) =
        some s1 ∧
      ProcessQueue A fuel
        (QueueIncompleteDumpNodes { s1 with RequireComplete := false }) =
        some s2 ∧
      sF = emit xmlFooter (ProcessFileQueue A s2) := by
  simp only [HandleTranslationUnit] at h
  rcases hp1 : ProcessQueue A fuel
      (emit xmlHeader (seedStart A startNames s0)) with _ | s1
  · rw [hp1] at h
    cases h
  · rw [hp1] at h
    simp only at h
    rcases hp2 : ProcessQueue A fuel
        (QueueIncompleteDumpNodes { s1 with RequireComplete := false })
      with _ | s2
    · rw [hp2] at h
      cases h
    · rw [hp2] at h
      simp only [Option.some.injEq] at h
      exact ⟨s1, s2, rfl, hp2, h.symm⟩

theorem processQueue_empty (A : AST) (fuel : Nat) (s : VisState)
    (h : s.Queue = []) : ProcessQueue A fuel s = some s := by
  cases fuel <;> (unfold ProcessQueue; rw [h])

theorem findNode_queueIncomplete (s : VisState) (k : NodeKey) :
    (QueueIncompleteDumpNodes s).findNode k = s.findNode k := by
  cases k <;> rfl

theorem lookupStartAux_refines (A : AST) :
    ∀ (bound : Nat) (segs : List String) (dc : Nat) (s : VisState),
      lookupStartAux A bound segs dc s =
        (resolveStartAux A bound segs dc).foldl
          (fun s d => (AddDumpNode A d true s).2) s := by
  intro bound
  induction bound with
  | zero =>
    intro segs dc s
    cases segs <;> rfl
  | succ b ih =>
    intro segs dc s
    cases segs with
    | nil => rfl
    | cons cur rest =>
      simp only [lookupStartAux, resolveStartAux]
      by_cases hr : rest.isEmpty
      · rw [if_pos hr, if_pos hr]
      · rw [if_neg hr, if_neg hr]
        have haux : ∀ (ms : List Nat) (s : VisState),
            (ms.foldl (fun s d =>
              if (A.info d).isDeclContext = true then
                lookupStartAux A b rest d s
              else s) s) =
            ((ms.filter (fun d => (A.info d).isDeclContext)).flatMap
              (fun d => resolveStartAux A b rest d)).foldl
              (fun s d => (AddDumpNode A d true s).2) s := by
          intro ms
          induction ms with
          | nil =>
            intro s
            rfl
          | cons m ms ihm =>
            intro s
            simp only [List.foldl_cons, List.filter_cons]
            by_cases hdc : (A.info m).isDeclContext = true
            · rw [if_pos hdc]
              simp only [hdc, if_true, List.flatMap_cons, List.foldl_append]
              rw [ih rest m s]
              exact ihm _
            · rw [if_neg hdc]
              simp only [hdc, Bool.false_eq_true, if_false]
              exact ihm s
        exact haux _ s

theorem lookupStart_refines (A : AST) (segs : List String) (dc : Nat)
    (s : VisState) :
    LookupStart A segs dc s =
      (resolveStart A segs dc).foldl
        (fun s d => (AddDumpNode A d true s).2) s :=
  lookupStartAux_refines A segs.length segs dc s

theorem membersLoop_all_skipped (A : AST) :
    ∀ (ds : List Nat) (acc : List Nat) (s : VisState),
      (∀ d ∈ ds, memberSkipped A d = true) →
      membersLoop A ds acc s = (acc, s) := by
  intro ds
  induction ds with
  | nil =>
    intro acc s _
    rfl
  | cons d rest ih =>
    intro acc s h
    simp only [membersLoop]
    rw [if_pos (h d (List.mem_cons_self _ _))]
    exact ih acc s (fun d' hd' => h d' (List.mem_cons_of_mem _ hd'))

/-- C4: for every type carrying top-level cv-qualifiers, the printed type
reference is the unqualified form's numeric id followed by a suffix
concatenating, in the fixed order c, v, r, the letters for const,
volatile, restrict, each omitted when absent (and the whole suffix omitted
when no qualifier is present); the id printed is the index under which the
unqualified form is registered.  In particular, registering `const T` and
`volatile const T` for the same unqualified `T` (type pointer 5) yields
one shared underlying id 2 for `T`, with reference strings `_2c` and
`_2cv`. -/
theorem claim4_cv_qualifier_suffix (t : QualType) (c : Bool)
    (s : VisState) :
    ((PrintTypeIdRef t c s).Output =
      s.Output ++ ("_" ++ toString (GetTypeIdRef t c s).1.1
        ++ (if t.qConst then "c" else "")
        ++ (if t.qVolatile then "v" else "")
        ++ (if t.qRestrict then "r" else "")) ∧
     ∃ dn, (GetTypeIdRef t c s).2.findNode
         (.type t.getLocalUnqualifiedType) = some dn ∧
       dn.Index = (GetTypeIdRef t c s).1.1) ∧
    ((PrintTypeIdRef ⟨5, true, false, false⟩ true VisState.initial).Output =
       "_2c" ∧
     (PrintTypeIdRef ⟨5, true, true, false⟩ true
        (PrintTypeIdRef ⟨5, true, false, false⟩ true
          VisState.initial)).Output = "_2c_2cv" ∧
     (PrintTypeIdRef ⟨5, true, true, false⟩ true
        (PrintTypeIdRef ⟨5, true, false, false⟩ true
          VisState.initial)).findNode (.type ⟨5, false, false, false⟩) =
       some ⟨2, true⟩) := by
  obtain ⟨hflags, hout, hfind⟩ := getTypeIdRef_spec t c s
  refine ⟨⟨?_, hfind⟩, by decide, by decide, by decide⟩
  unfold PrintTypeIdRef
  rcases h : GetTypeIdRef t c s with ⟨⟨i, qc, qv, qr⟩, s'⟩
  rw [h] at hflags hout
  simp only [Prod.mk.injEq] at hflags
  obtain ⟨-, hqc, hqv, hqr⟩ := hflags
  have hout' : s'.Output = s.Output := hout
  simp only [emit, hout', hqc, hqv, hqr]

/-- C2: `AddDumpNodeImpl(identity, requestComplete)` satisfies: if the
identity is unseen, it allocates the next global index, sets
`complete = requestComplete`, and enqueues the node if and only if
`requestComplete` is true or the dump is in its accept-any-completeness
phase (`RequireComplete` false); if the identity was seen, it flips
`complete` to true and enqueues exactly when `requestComplete` is true and
the stored node is not yet complete, and otherwise changes no state and
enqueues nothing; in every branch it returns the identity's stable index.
Consequently a node's completeness flag transitions only false-to-true, at
most once: a node already complete is never modified again. -/
theorem claim2_addDumpNodeImpl_contract (k : NodeKey) (c : Bool)
    (s : VisState) :
    (s.findNode k = none →
      (AddDumpNodeImpl k c s).1 = s.NodeCount + 1 ∧
      (AddDumpNodeImpl k c s).2.NodeCount = s.NodeCount + 1 ∧
      (AddDumpNodeImpl k c s).2.findNode k = some ⟨s.NodeCount + 1, c⟩ ∧
      ((c = true ∨ s.RequireComplete = false) →
        (AddDumpNodeImpl k c s).2.Queue = s.Queue ++ [k]) ∧
      (c = false → s.RequireComplete = true →
        (AddDumpNodeImpl k c s).2.Queue = s.Queue)) ∧
    (∀ dn, s.findNode k = some dn →
      (AddDumpNodeImpl k c s).1 = dn.Index ∧
      (c = true → dn.Complete = false →
        (AddDumpNodeImpl k c s).2.findNode k = some ⟨dn.Index, true⟩ ∧
        (AddDumpNodeImpl k c s).2.Queue = s.Queue ++ [k] ∧
        (AddDumpNodeImpl k c s).2.NodeCount = s.NodeCount ∧
        (AddDumpNodeImpl k c s).2.RequireComplete = s.RequireComplete) ∧
      (dn.Complete = true → AddDumpNodeImpl k c s = (dn.Index, s)) ∧
      (c = false → AddDumpNodeImpl k c s = (dn.Index, s))) := by
  constructor
  · intro hf
    have hself := addDumpNodeImpl_findNode_self k c s
    rw [addDumpNodeImpl_unseen k c s hf]
    rw [addDumpNodeImpl_unseen k c s hf] at hself
    refine ⟨?_, ?_, ?_, ?_, ?_⟩
    · by_cases hq : (c || !s.RequireComplete) = true <;> simp [hq]
    · by_cases hq : (c || !s.RequireComplete) = true <;> simp [hq]
    · by_cases hq : (c || !s.RequireComplete) = true <;>
        simpa [VisState.nodeComplete, hf, hq] using hself
    · intro hor
      have hq : (c || !s.RequireComplete) = true := by
        cases hor with
        | inl h1 => simp [h1]
        | inr h2 => simp [h2]
      simp [hq]
    · intro hc hr
      have hq : ¬((c || !s.RequireComplete) = true) := by simp [hc, hr]
      simp [hq]
  · intro dn hf
    refine ⟨addDumpNodeImpl_fst_seen k c s dn hf, ?_, ?_, ?_⟩
    · intro hc1 hc2
      have hcond : (c && !dn.Complete) = true := by simp [hc1, hc2]
      have hself := addDumpNodeImpl_findNode_self k c s
      rw [addDumpNodeImpl_seen k c s dn hf] at hself ⊢
      rw [if_pos hcond] at hself ⊢
      refine ⟨?_, by simp, by simp, by simp⟩
      simpa [VisState.nodeComplete, hf, hc1, hc2] using hself
    · intro hdone
      have hcond : ¬((c && !dn.Complete) = true) := by simp [hdone]
      rw [addDumpNodeImpl_seen k c s dn hf, if_neg hcond]
    · intro hc
      have hcond : ¬((c && !dn.Complete) = true) := by simp [hc]
      rw [addDumpNodeImpl_seen k c s dn hf, if_neg hcond]

/-- Witness for C2: from the empty registry, registering declaration 7
complete allocates index 1 and enqueues it; registering it again is a
no-op that returns the same index 1 and leaves the state untouched. -/
theorem claim2_witness :
    (AddDumpNodeImpl (.decl 7) true VisState.initial).1 = 1 ∧
    (AddDumpNodeImpl (.decl 7) true VisState.initial).2.Queue =
      [NodeKey.decl 7] ∧
    AddDumpNodeImpl (.decl 7) true
        (AddDumpNodeImpl (.decl 7) true VisState.initial).2 =
      (1, (AddDumpNodeImpl (.decl 7) true VisState.initial).2) := by
  have h1 := (claim2_addDumpNodeImpl_contract (.decl 7) true
    VisState.initial).1 (by decide)
  have h2 := (claim2_addDumpNodeImpl_contract (.decl 7) true
    (AddDumpNodeImpl (.decl 7) true VisState.initial).2).2 ⟨1, true⟩
    (by decide)
  refine ⟨h1.1, ?_, ?_⟩
  · rw [h1.2.2.2.1 (Or.inl rfl)]
    rfl
  · exact h2.2.2.1 rfl

/-- C5: node index numbering is a single increasing counter shared by
declaration identities and type identities: registering a fresh
declaration and then a fresh type produces the consecutive indices
`NodeCount + 1` and `NodeCount + 2` regardless of kind, while the file
index returned for a fresh file is `FileCount + 1`, a counter that node
registrations never touch (and node numbering that file registration
never touches). -/
theorem claim5_shared_counter (A : AST) (d : Nat) (t : QualType) (f : Nat)
    (c1 c2 : Bool) (s : VisState)
    (hd : s.findNode (.decl (A.info d).canonical) = none)
    (ht : s.findNode (.type t) = none)
    (hf : alistFind id f s.FileNodes = none) :
    (AddDumpNode A d c1 s).1 = s.NodeCount + 1 ∧
    (AddDumpNodeType t c2 (AddDumpNode A d c1 s).2).1 = s.NodeCount + 2 ∧
    (AddDumpFile f (AddDumpNodeType t c2 (AddDumpNode A d c1 s).2).2).1 =
      s.FileCount + 1 ∧
    (AddDumpFile f
        (AddDumpNodeType t c2 (AddDumpNode A d c1 s).2).2).2.NodeCount =
      s.NodeCount + 2 ∧
    (AddDumpNode A d c1 s).2.FileCount = s.FileCount := by
  have hne : NodeKey.type t ≠ NodeKey.decl (A.info d).canonical := by
    intro hh
    cases hh
  have ht1 : (AddDumpNode A d c1 s).2.findNode (.type t) = s.findNode (.type t) :=
    addDumpNodeImpl_findNode_ne _ _ c1 s hne
  have hnc1 : (AddDumpNode A d c1 s).2.NodeCount = s.NodeCount + 1 :=
    addDumpNodeImpl_unseen_nodeCount _ c1 s hd
  have hfst2 :
      (AddDumpNodeType t c2 (AddDumpNode A d c1 s).2).1 = s.NodeCount + 2 := by
    show (AddDumpNodeImpl (.type t) c2 (AddDumpNode A d c1 s).2).1 =
      s.NodeCount + 2
    rw [addDumpNodeImpl_unseen_fst _ c2 _ (ht1.trans ht), hnc1]
  have hnc2 :
      (AddDumpNodeType t c2 (AddDumpNode A d c1 s).2).2.NodeCount =
        s.NodeCount + 2 := by
    show (AddDumpNodeImpl (.type t) c2 (AddDumpNode A d c1 s).2).2.NodeCount =
      s.NodeCount + 2
    rw [addDumpNodeImpl_unseen_nodeCount _ c2 _ (ht1.trans ht), hnc1]
  have hfn1 : (AddDumpNode A d c1 s).2.FileNodes = s.FileNodes :=
    (addDumpNodeImpl_basics _ c1 s).2.2.2.1
  have hfn2 :
      (AddDumpNodeType t c2 (AddDumpNode A d c1 s).2).2.FileNodes =
        s.FileNodes :=
    ((addDumpNodeImpl_basics _ c2 _).2.2.2.1).trans hfn1
  have hfc1 : (AddDumpNode A d c1 s).2.FileCount = s.FileCount :=
    (addDumpNodeImpl_basics _ c1 s).2.2.2.2.1
  have hfc2 :
      (AddDumpNodeType t c2 (AddDumpNode A d c1 s).2).2.FileCount =
        s.FileCount :=
    ((addDumpNodeImpl_basics _ c2 _).2.2.2.2.1).trans hfc1
  have hfile := addDumpFile_unseen f
    (AddDumpNodeType t c2 (AddDumpNode A d c1 s).2).2 (hfn2 ▸ hf)
  refine ⟨addDumpNodeImpl_unseen_fst _ c1 s hd, hfst2, ?_, ?_, hfc1⟩
  · rw [hfile, hfc2]
  · rw [hfile]
    simpa using hnc2

/-- Witness for C5: in a concrete run from the initial state, the first
declaration discovered gets node id 1, the type discovered next gets node
id 2, and the first file gets the independent file id 1. -/
theorem claim5_witness :
    (AddDumpNode astCv 1 true VisState.initial).1 = 1 ∧
    (AddDumpNodeType ⟨9, false, false, false⟩ true
      (AddDumpNode astCv 1 true VisState.initial).2).1 = 2 ∧
    (AddDumpFile 3 (AddDumpNodeType ⟨9, false, false, false⟩ true
      (AddDumpNode astCv 1 true VisState.initial).2).2).1 = 1 := by
  have h := claim5_shared_counter astCv 1 ⟨9, false, false, false⟩ 3
    true true VisState.initial (by decide) (by decide) (by decide)
  exact ⟨h.1, h.2.1, h.2.2.1⟩

/-- C8: dispatching a node whose concrete kind has no dedicated output
routine is not an error: the dispatcher emits exactly one minimal
`<Unimplemented .../>` element carrying the node's assigned id and the
human-readable kind tag (the decl kind name, or the type class name for
an unqualified type), changes nothing else, and returns normally, so an
unsupported construct never aborts the dump. -/
theorem claim8_unimplemented_fallback (A : AST) (d : Nat) (t : QualType)
    (dn dnT : DumpNode) (s sT : VisState)
    (hk : hasDedicatedRoutine (A.info d).kind = false)
    (ht : t.hasLocalQualifiers = false) :
    OutputDecl A d dn s =
      emit ("  <Unimplemented id=\"_" ++ toString dn.Index ++ "\" kind=\""
        ++ encodeXML (A.info d).kind.kindName ++ "\"/>\n") s ∧
    OutputType A t dnT sT =
      emit ("  <Unimplemented id=\"_" ++ toString dnT.Index
        ++ "\" type_class=\"" ++ encodeXML (A.typeClassName t.ptr)
        ++ "\"/>\n") sT := by
  constructor
  · cases hkk : (A.info d).kind with
    | TranslationUnit =>
      rw [hkk] at hk
      simp [hasDedicatedRoutine] at hk
    | Namespace =>
      rw [hkk] at hk
      simp [hasDedicatedRoutine] at hk
    | Typedef =>
      rw [hkk] at hk
      simp [hasDedicatedRoutine] at hk
    | CXXRecord => simp [OutputDecl, OutputUnimplementedDecl, hkk]
    | AccessSpec => simp [OutputDecl, OutputUnimplementedDecl, hkk]
    | Other n => simp [OutputDecl, OutputUnimplementedDecl, hkk]
  · simp [OutputType, OutputUnimplementedType, ht]

/-- Witness for C8: dispatching a field declaration (no dedicated
routine) and an unqualified builtin type emits exactly the placeholder
elements. -/
theorem claim8_witness :
    OutputDecl astMembers 6 ⟨5, false⟩ VisState.initial =
      emit "  <Unimplemented id=\"_5\" kind=\"Field\"/>\n"
        VisState.initial ∧
    OutputType astMembers ⟨9, false, false, false⟩ ⟨4, true⟩
        VisState.initial =
      emit "  <Unimplemented id=\"_4\" type_class=\"Builtin\"/>\n"
        VisState.initial := by
  have h := claim8_unimplemented_fallback astMembers 6
    ⟨9, false, false, false⟩ ⟨5, false⟩ ⟨4, true⟩ VisState.initial
    VisState.initial (by decide) (by decide)
  exact ⟨h.1.trans (by decide), h.2.trans (by decide)⟩

/-- C7: the members attribute of a container enumerates the container's
direct children, skipping a class's self-referential injected name and
pure access-specifier markers; every remaining child is registered with a
full completeness request (its registry entry ends up complete); the
emitted id set is strictly ascending (hence deduplicated), every
non-skipped child's id is in it, and every id in it comes from some
non-skipped child; the textual attribute is the space-separated ascending
id list.  (The `ZeroFree` hypothesis is the registry invariant that stored
indices are nonzero, which holds for every state reachable from the
initial one.) -/
theorem claim7_members_attribute (A : AST) (dc : Nat) (s : VisState)
    (hz : ZeroFree s) :
    List.Chain' (· < ·) (membersLoop A (A.info dc).children [] s).1 ∧
    (PrintMembersAttribute A dc s).Output =
      s.Output ++
        (if (membersLoop A (A.info dc).children [] s).1.isEmpty then ""
         else " members=\"" ++
           idRefList (membersLoop A (A.info dc).children [] s).1 ++ "\"") ∧
    (∀ d ∈ (A.info dc).children, memberSkipped A d = false →
      ∃ i, (PrintMembersAttribute A dc s).findNode
          (.decl (A.info d).canonical) = some ⟨i, true⟩ ∧
        i ∈ (membersLoop A (A.info dc).children [] s).1) ∧
    (∀ i ∈ (membersLoop A (A.info dc).children [] s).1,
      ∃ d ∈ (A.info dc).children, memberSkipped A d = false ∧
        (PrintMembersAttribute A dc s).findNode
          (.decl (A.info d).canonical) = some ⟨i, true⟩) := by
  obtain ⟨h1, h2, h3, h4, h5, h6⟩ :=
    membersLoop_invariant A (A.info dc).children [] s hz
  have hfind : ∀ k, (PrintMembersAttribute A dc s).findNode k =
      (membersLoop A (A.info dc).children [] s).2.findNode k := by
    intro k
    unfold PrintMembersAttribute
    rcases hml : membersLoop A (A.info dc).children [] s with ⟨em, s'⟩
    by_cases he : em.isEmpty <;> simp [he]
  refine ⟨h3 (by simp), ?_, ?_, ?_⟩
  · unfold PrintMembersAttribute
    rcases hml : membersLoop A (A.info dc).children [] s with ⟨em, s'⟩
    have h1' : s'.Output = s.Output := by
      have := h1
      rw [hml] at this
      exact this
    by_cases he : em.isEmpty
    · simp only [he, if_true, if_pos]
      rw [h1']
      simp
    · simp only [he, Bool.false_eq_true, if_false, emit]
      rw [h1']
  · intro d hd hns
    obtain ⟨i, hf, hm⟩ := h4 d hd hns
    exact ⟨i, (hfind _).trans hf, hm⟩
  · intro i hi
    rcases h5 i hi with hin | ⟨d, hd, hns, hf⟩
    · simp at hin
    · exact ⟨d, hd, hns, (hfind _).trans hf⟩

/-- Witness for C7: for the concrete class `C` (decl 3, children: its
injected name, an access specifier, and fields 6 and 7), the attribute
text is ` members="_1 _2"`, the id list [1, 2] is strictly ascending, and
field 6 ends registered complete under id 1. -/
theorem claim7_witness :
    (membersLoop astMembers (astMembers.info 3).children []
      VisState.initial).1 = [1, 2] ∧
    (PrintMembersAttribute astMembers 3 VisState.initial).Output =
      " members=\"_1 _2\"" ∧
    (∃ i, (PrintMembersAttribute astMembers 3 VisState.initial).findNode
        (.decl 6) = some ⟨i, true⟩ ∧
      i ∈ (membersLoop astMembers (astMembers.info 3).children []
        VisState.initial).1) := by
  have h := claim7_members_attribute astMembers 3 VisState.initial
    zeroFree_initial
  refine ⟨by decide, ?_, ?_⟩
  · exact h.2.1.trans (by decide)
  · have h6 := h.2.2.1 6 (by decide) (by decide)
    have hcan : (astMembers.info 6).canonical = 6 := by decide
    rwa [hcan] at h6

/-- C10: for every declaration context whose filtered direct-child set is
empty (every direct child is either the injected class name or an
access-specifier marker), `PrintMembersAttribute` emits no members
attribute at all and changes nothing: the result state, output included,
is exactly the input state, rather than carrying an empty-string
attribute. -/
theorem claim10_empty_members_omitted (A : AST) (dc : Nat) (s : VisState)
    (h : ∀ d ∈ (A.info dc).children, memberSkipped A d = true) :
    PrintMembersAttribute A dc s = s := by
  unfold PrintMembersAttribute
  rw [membersLoop_all_skipped A _ [] s h]
  rfl

/-- Witness for C10: the concrete class `E` (decl 8) has only skipped
children (its injected name and an access specifier), and printing its
members attribute from the initial state is the identity. -/
theorem claim10_witness :
    PrintMembersAttribute astMembers 8 VisState.initial =
      VisState.initial :=
  claim10_empty_members_omitted astMembers 8 VisState.initial (by decide)

set_option maxRecDepth 20000 in
/-- C1 (code defect at a concrete input): dumping `astCv` — a translation
unit holding one typedef whose type is `const`-qualified builtin type 7 —
registers the qualified type as its own identity with index 3 (and the
run reaches the terminal state, so the index was returned and stable),
yet the final document contains zero elements whose id attribute is `_3`,
while the unqualified type's element `_4` appears exactly once.  The
registered identity is therefore missing from the output, contradicting
the claim's "exactly one element carries that index": the dequeued
qualified type reaches `OutputCvQualifiedType`, whose body is only a TODO
comment, although `PrintTypeIdRef`'s own documentation promises a
`CvQualifiedType` element under that id (the reference `_4c` is printed
and dangles). -/
theorem claim1_cv_qualified_node_never_emitted :
    (outputXML astCv [] 20).map (fun s =>
      (s.findNode (.type ⟨7, true, false, false⟩),
       occCount "id=\"_3\"" s.Output,
       occCount "id=\"_4\"" s.Output)) =
      some (some ⟨3, true⟩, 0, 1) := by
  decide

set_option maxRecDepth 40000 in
/-- Counterexample to C6: in the dump of `astOrder` started at `A::t1`
and `B::t2`, namespace `A` (decl pointer 20) is discovered before
namespace `B` (decl pointer 10) — their indices are 4 and 5 — and both
are emitted in phase 2; but the element with id `_5` appears in the
output strictly before the element with id `_4`, because the phase-2
sweep iterates the declaration registry in pointer order (10 before 20),
not in discovery order.  This refutes "FIFO by discovery order within
each phase" for phase 2. -/
theorem claim6_counterexample :
    (outputXML astOrder ["A::t1", "B::t2"] 20).map (fun s =>
      (s.findNode (.decl 20), s.findNode (.decl 10),
       occCount "id=\"_4\"" s.Output, occCount "id=\"_5\"" s.Output,
       occursBefore "id=\"_5\"" "id=\"_4\"" s.Output)) =
      some (some ⟨4, false⟩, some ⟨5, false⟩, 1, 1, true) := by
  decide

/-- C6 as amended: all phase-1 node output precedes all phase-2 node
output, the file-list elements are emitted after all node output in file
discovery (queue) order, and phase-1 output follows queue (discovery)
order; but the initial phase-2 queue holds the swept incomplete nodes in
registry storage order — all declarations (ascending decl-pointer key)
before all types (ascending type key) — not in discovery order. -/
theorem claim6_amended_output_order (A : AST) (startNames : List String)
    (fuel : Nat) (s0 sF : VisState)
    (h : HandleTranslationUnit A startNames fuel s0 = some sF) :
    ∃ s1 s2 out1 out2,
      ProcessQueue A fuel (emit xmlHeader (seedStart A startNames s0)) =
        some s1 ∧
      ProcessQueue A fuel
        (QueueIncompleteDumpNodes { s1 with RequireComplete := false }) =
        some s2 ∧
      s1.Output = s0.Output ++ xmlHeader ++ out1 ∧
      s2.Output = s1.Output ++ out2 ∧
      sF.Output = s2.Output ++
        strJoin (s2.FileQueue.map (fileElement A s2)) ++ xmlFooter ∧
      (QueueIncompleteDumpNodes
          { s1 with RequireComplete := false }).Queue =
        (s1.DeclNodes.filter (fun p => !p.2.Complete)).map
          (fun p => NodeKey.decl p.1) ++
        (s1.TypeNodes.filter (fun p => !p.2.Complete)).map
          (fun p => NodeKey.type p.1) ∧
      (WellFormedMaps s0 →
        List.Chain' (· < ·) (mapKeys id s1.DeclNodes) ∧
        List.Chain' (· < ·) (mapKeys QualType.key s1.TypeNodes)) := by
  obtain ⟨s1, s2, hp1, hp2, hsF⟩ :=
    handleTU_decompose A startNames fuel s0 sF h
  obtain ⟨-, ⟨t1, ho1⟩, -, -, hw1⟩ := preserves_ProcessQueue A fuel _ s1 hp1
  obtain ⟨-, ⟨t2, ho2⟩, -, -, -⟩ := preserves_ProcessQueue A fuel _ s2 hp2
  have hq1 : s1.Queue = [] := processQueue_queue_empty A fuel _ s1 hp1
  refine ⟨s1, s2, t1, t2, hp1, hp2, ?_, ?_, ?_, ?_, ?_⟩
  · rw [ho1]
    show (seedStart A startNames s0).Output ++ xmlHeader ++ t1 =
      s0.Output ++ xmlHeader ++ t1
    rw [seedStart_output]
  · rw [ho2]
    rfl
  · rw [hsF]
    show (ProcessFileQueue A s2).Output ++ xmlFooter = _
    rw [processFileQueue_output]
  · simp [QueueIncompleteDumpNodes, hq1]
  · intro hw0
    have hw : WellFormedMaps s1 := by
      apply hw1
      have hws := (preserves_seedStart A startNames s0).2.2.2.2 hw0
      exact (preserves_emit xmlHeader _).2.2.2.2 hws
    exact ⟨hw.1, hw.2⟩

/-- Witness for C6's amended ordering theorem: instantiated on the
`astOrder` dump. -/
theorem claim6_amended_witness :
    ∃ s1 s2 out1 out2,
      ProcessQueue astOrder 20
          (emit xmlHeader (seedStart astOrder ["A::t1", "B::t2"]
            VisState.initial)) = some s1 ∧
      ProcessQueue astOrder 20
        (QueueIncompleteDumpNodes { s1 with RequireComplete := false }) =
        some s2 ∧
      s1.Output = VisState.initial.Output ++ xmlHeader ++ out1 ∧
      s2.Output = s1.Output ++ out2 ∧
      (∃ sF, HandleTranslationUnit astOrder ["A::t1", "B::t2"] 20
          VisState.initial = some sF ∧
        sF.Output = s2.Output ++
          strJoin (s2.FileQueue.map (fileElement astOrder s2)) ++
          xmlFooter) ∧
      (QueueIncompleteDumpNodes
          { s1 with RequireComplete := false }).Queue =
        (s1.DeclNodes.filter (fun p => !p.2.Complete)).map
          (fun p => NodeKey.decl p.1) ++
        (s1.TypeNodes.filter (fun p => !p.2.Complete)).map
          (fun p => NodeKey.type p.1) ∧
      List.Chain' (· < ·) (mapKeys id s1.DeclNodes) := by
  have hrun : ∃ sF, HandleTranslationUnit astOrder ["A::t1", "B::t2"] 20
      VisState.initial = some sF :=
    ⟨_, rfl⟩
  obtain ⟨sF, hsF⟩ := hrun
  obtain ⟨s1, s2, out1, out2, hp1, hp2, h1, h2, h3, h4, h5⟩ :=
    claim6_amended_output_order astOrder ["A::t1", "B::t2"] 20
      VisState.initial sF hsF
  exact ⟨s1, s2, out1, out2, hp1, hp2, h1, h2, ⟨sF, hsF, h3⟩, h4,
    (h5 ⟨List.chain'_nil, List.chain'_nil⟩).1⟩

/-- C3: the dump is a two-phase state machine.  For every terminating
run: phase 1 drains the queue produced by seeding (it ends with an empty
queue and with `RequireComplete` unchanged, i.e. still true when starting
from the constructor state); the transition then happens exactly once —
`RequireComplete` is set to false and the registries are swept, after
which every identity whose node is still incomplete is in the queue —
and phase 2 drains that queue in the accept-incomplete mode
(`RequireComplete` stays false); the run ends exactly when phase 2's
queue becomes empty, after which only the file queue and trailer remain. -/
theorem claim3_two_phase_drain (A : AST) (startNames : List String)
    (fuel : Nat) (s0 sF : VisState)
    (h : HandleTranslationUnit A startNames fuel s0 = some sF) :
    ∃ s1 s2,
      ProcessQueue A fuel (emit xmlHeader (seedStart A startNames s0)) =
        some s1 ∧
      s1.Queue = [] ∧
      s1.RequireComplete = s0.RequireComplete ∧
      (QueueIncompleteDumpNodes
          { s1 with RequireComplete := false }).RequireComplete = false ∧
      (∀ k dn, s1.findNode k = some dn → dn.Complete = false →
        k ∈ (QueueIncompleteDumpNodes
          { s1 with RequireComplete := false }).Queue) ∧
      ProcessQueue A fuel
        (QueueIncompleteDumpNodes { s1 with RequireComplete := false }) =
        some s2 ∧
      s2.Queue = [] ∧
      s2.RequireComplete = false ∧
      sF = emit xmlFooter (ProcessFileQueue A s2) := by
  obtain ⟨s1, s2, hp1, hp2, hsF⟩ :=
    handleTU_decompose A startNames fuel s0 sF h
  have hq1 : s1.Queue = [] := processQueue_queue_empty A fuel _ s1 hp1
  have hq2 : s2.Queue = [] := processQueue_queue_empty A fuel _ s2 hp2
  have hrc1 : s1.RequireComplete = s0.RequireComplete := by
    have ha := (preserves_ProcessQueue A fuel _ s1 hp1).1
    have hb := (preserves_seedStart A startNames s0).1
    rw [ha]
    show (seedStart A startNames s0).RequireComplete = s0.RequireComplete
    exact hb
  have hrc2 : s2.RequireComplete = false := by
    have ha := (preserves_ProcessQueue A fuel _ s2 hp2).1
    rw [ha]
    rfl
  refine ⟨s1, s2, hp1, hq1, hrc1, rfl, ?_, hp2, hq2, hrc2, hsF⟩
  intro k dn hfind hinc
  unfold QueueIncompleteDumpNodes
  simp only [List.mem_append]
  cases k with
  | decl d =>
    refine Or.inl (Or.inr ?_)
    rw [findNode_decl] at hfind
    obtain ⟨d', hk, hmem⟩ := alistFind_mem hfind
    have hd : d' = d := hk
    subst hd
    exact List.mem_map.mpr ⟨(d', dn), List.mem_filter.mpr
      ⟨hmem, by simp [hinc]⟩, rfl⟩
  | type t =>
    refine Or.inr ?_
    rw [findNode_type] at hfind
    obtain ⟨t', hk, hmem⟩ := alistFind_mem hfind
    have ht : t' = t := QualType.key_inj hk
    subst ht
    exact List.mem_map.mpr ⟨(t', dn), List.mem_filter.mpr
      ⟨hmem, by simp [hinc]⟩, rfl⟩

/-- Witness for C3: the two-phase decomposition instantiated on the
`astCv` dump. -/
theorem claim3_witness :
    ∃ s1 s2,
      ProcessQueue astCv 20
          (emit xmlHeader (seedStart astCv [] VisState.initial)) =
        some s1 ∧
      s1.Queue = [] ∧
      s1.RequireComplete = VisState.initial.RequireComplete ∧
      (QueueIncompleteDumpNodes
          { s1 with RequireComplete := false }).RequireComplete = false ∧
      (∀ k dn, s1.findNode k = some dn → dn.Complete = false →
        k ∈ (QueueIncompleteDumpNodes
          { s1 with RequireComplete := false }).Queue) ∧
      ProcessQueue astCv 20
        (QueueIncompleteDumpNodes { s1 with RequireComplete := false }) =
        some s2 ∧
      s2.Queue = [] ∧
      s2.RequireComplete = false ∧
      (∃ sF, HandleTranslationUnit astCv [] 20 VisState.initial = some sF ∧
        sF = emit xmlFooter (ProcessFileQueue astCv s2)) := by
  obtain ⟨s1, s2, h1, h2, h3, h4, h5, h6, h7, h8, h9⟩ :=
    claim3_two_phase_drain astCv [] 20 VisState.initial _ rfl
  exact ⟨s1, s2, h1, h2, h3, h4, h5, h6, h7, h8, ⟨_, rfl, h9⟩⟩

/-- C9: start-set resolution.  (i) `LookupStart` registers, complete and
in traversal order, exactly the declarations computed by the
specification-level resolution `resolveStart` (split the dotted name on
the first separator, look the leading segment up in the current
container, register every match when no segment remains, otherwise
recurse into every match that is itself a container).  (ii) A name
matching nothing contributes nothing and is not an error.  (iii) When
every supplied start name matches nothing at some level, the dump
succeeds and contains only the document envelope.  (iv) With zero start
names, the whole translation unit is registered with a full completeness
request, and it is still recorded complete in the terminal state. -/
theorem claim9_start_resolution (A : AST) (segs : List String) (dc : Nat)
    (s : VisState) (names : List String) (fuel : Nat) :
    (LookupStart A segs dc s =
      (resolveStart A segs dc).foldl
        (fun s d => (AddDumpNode A d true s).2) s) ∧
    (resolveStart A segs dc = [] → LookupStart A segs dc s = s) ∧
    (names ≠ [] →
      (∀ n ∈ names, resolveStart A (splitScopedName n) A.tuDecl = []) →
      ∃ sF, HandleTranslationUnit A names fuel VisState.initial = some sF ∧
        sF.Output = xmlHeader ++ xmlFooter) ∧
    (∀ sF, HandleTranslationUnit A [] fuel VisState.initial = some sF →
      ∃ dn, sF.findNode (.decl (A.info A.tuDecl).canonical) = some dn ∧
        dn.Complete = true) := by
  refine ⟨lookupStart_refines A segs dc s, ?_, ?_, ?_⟩
  · intro hres
    rw [lookupStart_refines A segs dc s, hres]
    rfl
  · intro hne hres
    have hn : (!names.isEmpty) = true := by
      cases names with
      | nil => exact absurd rfl hne
      | cons a l => rfl
    have hseed : seedStart A names VisState.initial = VisState.initial := by
      unfold seedStart
      rw [if_pos hn]
      have haux : ∀ ns : List String,
          (∀ n ∈ ns, resolveStart A (splitScopedName n) A.tuDecl = []) →
          ∀ st : VisState, (ns.foldl (fun s n =>
            LookupStart A (splitScopedName n) A.tuDecl s) st) = st := by
        intro ns
        induction ns with
        | nil =>
          intro _ st
          rfl
        | cons n ns ihn =>
          intro hr st
          simp only [List.foldl_cons]
          rw [lookupStart_refines, hr n (List.mem_cons_self _ _)]
          exact ihn (fun n' hn' => hr n' (List.mem_cons_of_mem _ hn')) st
      exact haux names hres VisState.initial
    have h1 : ProcessQueue A fuel (emit xmlHeader VisState.initial) =
        some (emit xmlHeader VisState.initial) :=
      processQueue_empty A fuel _ rfl
    have h2 : ProcessQueue A fuel
        (QueueIncompleteDumpNodes
          { emit xmlHeader VisState.initial with
            RequireComplete := false }) =
        some (QueueIncompleteDumpNodes
          { emit xmlHeader VisState.initial with
            RequireComplete := false }) :=
      processQueue_empty A fuel _ rfl
    refine ⟨emit xmlFooter (ProcessFileQueue A
      (QueueIncompleteDumpNodes
        { emit xmlHeader VisState.initial with
          RequireComplete := false })), ?_, ?_⟩
    · simp only [HandleTranslationUnit]
      rw [hseed]
      simp only [h1, h2]
    · rfl
  · intro sF hsF
    obtain ⟨s1, s2, hp1, hp2, hfin⟩ :=
      handleTU_decompose A [] fuel VisState.initial sF hsF
    have hf0 : (seedStart A [] VisState.initial).findNode
        (.decl (A.info A.tuDecl).canonical) =
        some ⟨(AddDumpNodeImpl (.decl (A.info A.tuDecl).canonical) true
          VisState.initial).1, true⟩ := by
      show (AddDumpNodeImpl (.decl (A.info A.tuDecl).canonical) true
        VisState.initial).2.findNode (.decl (A.info A.tuDecl).canonical) = _
      have hh := addDumpNodeImpl_findNode_self
        (.decl (A.info A.tuDecl).canonical) true VisState.initial
      simpa [VisState.nodeComplete, VisState.initial, alistFind] using hh
    have hf1 : (emit xmlHeader (seedStart A [] VisState.initial)).findNode
        (.decl (A.info A.tuDecl).canonical) =
        some ⟨(AddDumpNodeImpl (.decl (A.info A.tuDecl).canonical) true
          VisState.initial).1, true⟩ := by
      rw [findNode_emit]
      exact hf0
    have hf2 := preserves_complete_node
      (preserves_ProcessQueue A fuel _ s1 hp1) hf1
    have hf3 : (QueueIncompleteDumpNodes
        { s1 with RequireComplete := false }).findNode
        (.decl (A.info A.tuDecl).canonical) =
        some ⟨(AddDumpNodeImpl (.decl (A.info A.tuDecl).canonical) true
          VisState.initial).1, true⟩ := by
      rw [findNode_queueIncomplete, findNode_set_rc]
      exact hf2
    have hf4 := preserves_complete_node
      (preserves_ProcessQueue A fuel _ s2 hp2) hf3
    have hf5 : sF.findNode (.decl (A.info A.tuDecl).canonical) =
        some ⟨(AddDumpNodeImpl (.decl (A.info A.tuDecl).canonical) true
          VisState.initial).1, true⟩ := by
      rw [hfin, findNode_emit, processFileQueue_findNode]
      exact hf4
    exact ⟨_, hf5, rfl⟩

/-- Witness for C9: on `astOrder`, the dangling name `zzz` contributes
nothing; a dump whose only start name is `zzz` produces exactly the
document envelope; and a dump with zero start names leaves the
translation unit registered complete in the terminal state. -/
theorem claim9_witness :
    LookupStart astOrder ["zzz"] 1 VisState.initial = VisState.initial ∧
    (∃ sF, HandleTranslationUnit astOrder ["zzz"] 5 VisState.initial =
        some sF ∧ sF.Output = xmlHeader ++ xmlFooter) ∧
    (∃ sF dn, HandleTranslationUnit astOrder [] 20 VisState.initial =
        some sF ∧
      sF.findNode (.decl (astOrder.info astOrder.tuDecl).canonical) =
        some dn ∧ dn.Complete = true) := by
  have h := claim9_start_resolution astOrder ["zzz"] 1 VisState.initial
    ["zzz"] 5
  refine ⟨h.2.1 (by decide), h.2.2.1 (by decide) (by decide), ?_⟩
  obtain ⟨dn, hdn, hc⟩ :=
    (claim9_start_resolution astOrder [] 1 VisState.initial [] 20).2.2.2
      _ rfl
  exact ⟨_, dn, rfl, hdn, hc⟩

end CastXML
